import Mathlib

/-!
Verification of the biblical_languages_flex core (app.py and
sblgnt_flextext_import.py) via a shallow embedding in Lean 4.

Python strings are modeled as Lean String / List Char, Python ints as Nat
(all integers occurring here are unsigned chapter/verse numbers, counts and
Strongs numbers), raised exceptions as Option (none = the call raised), and
dicts keyed by strings as association lists.  Regular expressions from the
source are translated into explicit character-level matchers; each matcher
is annotated with the regex it embeds.  The regexes involved are
deterministic after greediness analysis (character classes of adjacent
pieces are disjoint), so ordered choice without backtracking is faithful;
the one place Python backtracking is observable, the pattern G0*(\d+), is
noted at its matcher.
-/

/-- Whitespace as matched by the regex class \s (and str.strip) for the
ASCII repertoire used by this repository. -/
def pySpace (c : Char) : Bool :=
  c == ' ' || c == '\t' || c == '\n' || c == '\r' || c == '\x0b' || c == '\x0c'

/-- The character class [A-Za-z]. -/
def isAsciiLetter (c : Char) : Bool :=
  ('A' ≤ c && c ≤ 'Z') || ('a' ≤ c && c ≤ 'z')

/-- str.lower restricted to ASCII letters and the Greek capitals that can
occur in this repository (base alphabet and the seven accented capitals);
all other characters are returned unchanged. -/
def pyLower (c : Char) : Char :=
  if 'A' ≤ c && c ≤ 'Z' then Char.ofNat (c.toNat + 32)
  else if ('Α' ≤ c && c ≤ 'Ρ') || ('Σ' ≤ c && c ≤ 'Ω') then Char.ofNat (c.toNat + 32)
  else if c == 'Ά' then 'ά'
  else if c == 'Έ' then 'έ'
  else if c == 'Ή' then 'ή'
  else if c == 'Ί' then 'ί'
  else if c == 'Ό' then 'ό'
  else if c == 'Ύ' then 'ύ'
  else if c == 'Ώ' then 'ώ'
  else c

/-- str.strip on a character list: drop whitespace at both ends. -/
def stripChars (cs : List Char) : List Char :=
  ((cs.dropWhile pySpace).reverse.dropWhile pySpace).reverse

/-- str.strip on a String. -/
def pyStrip (s : String) : String :=
  String.mk (stripChars s.data)

/-- str.lstrip applied with the two characters G and g, as in
num.lstrip of the letters Gg in get_strongs_gloss. -/
def pyLStripGg (s : String) : String :=
  String.mk (s.data.dropWhile (fun c => c == 'G' || c == 'g'))

/-- entry.split at the first newline, index 0: the text up to the first
line break. -/
def firstLine (s : String) : String :=
  String.mk (s.data.takeWhile (fun c => c ≠ '\n'))

/-- Worker for collapseWs; the boolean records whether the previous
character was whitespace (so a run emits a single space). -/
def collapseWsAux : Bool → List Char → List Char
  | _, [] => []
  | prevSpace, c :: cs =>
    if pySpace c then
      if prevSpace then collapseWsAux true cs
      else ' ' :: collapseWsAux true cs
    else c :: collapseWsAux false cs

/-- re.sub of one-or-more whitespace with a single space: every maximal
whitespace run becomes one space character. -/
def collapseWs (cs : List Char) : List Char :=
  collapseWsAux false cs

/-- Greedy X+ for a character class: the maximal nonempty run satisfying p,
with the remaining suffix; none when the first character does not match. -/
def span1 (p : Char → Bool) (cs : List Char) : Option (List Char × List Char) :=
  match cs.takeWhile p with
  | [] => none
  | t => some (t, cs.dropWhile p)

/-- Require one literal character. -/
def expectChar (c : Char) : List Char → Option (List Char)
  | [] => none
  | x :: xs => if x == c then some xs else none

/-- Require a literal string (given as a character list). -/
def expectStr : List Char → List Char → Option (List Char)
  | [], cs => some cs
  | _ :: _, [] => none
  | p :: ps, c :: cs => if c == p then expectStr ps cs else none

/-- Require a literal string case-insensitively (re.I). -/
def expectStrCI : List Char → List Char → Option (List Char)
  | [], cs => some cs
  | _ :: _, [] => none
  | p :: ps, c :: cs => if pyLower c == pyLower p then expectStrCI ps cs else none

/-- Require one literal character case-insensitively (re.I). -/
def expectCharCI (c : Char) : List Char → Option (List Char)
  | [] => none
  | x :: xs => if pyLower x == pyLower c then some xs else none

/-- Value of a decimal digit string, as computed by int() on the digit
groups captured by the regexes below. -/
def natOfDigits (cs : List Char) : Nat :=
  cs.foldl (fun a c => a * 10 + (c.toNat - 48)) 0

/-- Greedy capture group of one-or-more digits, converted with int(). -/
def digits1 (cs : List Char) : Option (Nat × List Char) :=
  match span1 Char.isDigit cs with
  | some (ds, r) => some (natOfDigits ds, r)
  | none => none

/-- First-match association-list lookup, modelling a Python dict whose
insertion order is the source order of its literal. -/
def assocLookup {α β : Type} [DecidableEq α] : List (α × β) → α → Option β
  | [], _ => none
  | (k, v) :: rest, key => if k = key then some v else assocLookup rest key

/- ---------------------------------------------------------------------
Reference Parser: parse_reference_range in app.py.
--------------------------------------------------------------------- -/

/-- Book group ([1-3]?[A-Za-z]+): an optional leading numeral 1 to 3
followed by one or more ASCII letters.  Letters and digits are disjoint, so
no backtracking over the optional numeral is possible. -/
def matchBook (cs : List Char) : Option (List Char × List Char) :=
  match cs with
  | [] => none
  | c :: rest =>
    if c == '1' || c == '2' || c == '3' then
      match span1 isAsciiLetter rest with
      | some (ls, r) => some (c :: ls, r)
      | none => none
    else
      span1 isAsciiLetter cs

/-- Anchored match of the cross-chapter grammar
Book <ws>+ d+ : d+ <ws>* - <ws>* d+ : d+ <end>, returning the regex groups
(book, start chapter, start verse, end chapter, end verse). -/
def matchRefCross (cs : List Char) : Option (String × Nat × Nat × Nat × Nat) := do
  let (book, r1) ← matchBook cs
  let (_, r2) ← span1 pySpace r1
  let (sc, r3) ← digits1 r2
  let r4 ← expectChar ':' r3
  let (sv, r5) ← digits1 r4
  let r6 := r5.dropWhile pySpace
  let r7 ← expectChar '-' r6
  let r8 := r7.dropWhile pySpace
  let (ec, r9) ← digits1 r8
  let r10 ← expectChar ':' r9
  let (ev, r11) ← digits1 r10
  if r11 = [] then pure (String.mk book, sc, sv, ec, ev) else none

/-- Anchored match of the same-chapter grammar
Book <ws>+ d+ : d+ <ws>* - <ws>* d+ <end>, returning the groups
(book, start chapter, start verse, end verse). -/
def matchRefSame (cs : List Char) : Option (String × Nat × Nat × Nat) := do
  let (book, r1) ← matchBook cs
  let (_, r2) ← span1 pySpace r1
  let (sc, r3) ← digits1 r2
  let r4 ← expectChar ':' r3
  let (sv, r5) ← digits1 r4
  let r6 := r5.dropWhile pySpace
  let r7 ← expectChar '-' r6
  let r8 := r7.dropWhile pySpace
  let (ev, r9) ← digits1 r8
  if r9 = [] then pure (String.mk book, sc, sv, ev) else none

/-- Anchored match of the single-verse grammar Book <ws>+ d+ : d+ <end>,
returning the groups (book, chapter, verse). -/
def matchRefSingle (cs : List Char) : Option (String × Nat × Nat) := do
  let (book, r1) ← matchBook cs
  let (_, r2) ← span1 pySpace r1
  let (sc, r3) ← digits1 r2
  let r4 ← expectChar ':' r3
  let (sv, r5) ← digits1 r4
  if r5 = [] then pure (String.mk book, sc, sv) else none

/-- The normalisation performed before matching: strip the ends, then
collapse internal whitespace runs to a single space. -/
def normalizeRef (s : String) : List Char :=
  collapseWs (stripChars s.data)

/-- parse_reference_range: try the three grammars in order (first match
wins) on the normalised string, building the range exactly as each return
statement of the source does; none models the raised ValueError
(InvalidReference). -/
def parse_reference_range (ref : String) : Option (String × (Nat × Nat) × (Nat × Nat)) :=
  let s := normalizeRef ref
  match matchRefCross s with
  | some (book, sc, sv, ec, ev) => some (book, (sc, sv), (ec, ev))
  | none =>
    match matchRefSame s with
    | some (book, sc, sv, ev) => some (book, (sc, sv), (sc, ev))
    | none =>
      match matchRefSingle s with
      | some (book, sc, sv) => some (book, (sc, sv), (sc, sv))
      | none => none

/-- Lexicographic order on (chapter, verse) pairs, as used by the passage
loop guard and by the range invariant of the spec. -/
def lexLe (a b : Nat × Nat) : Prop :=
  a.1 < b.1 ∨ (a.1 = b.1 ∧ a.2 ≤ b.2)

instance (a b : Nat × Nat) : Decidable (lexLe a b) := by
  unfold lexLe; infer_instance

/- ---------------------------------------------------------------------
Data model: InterlinearWord and InterlinearVerse.
--------------------------------------------------------------------- -/

/-- InterlinearWord: all extracted interlinear data for a single Greek
word, with the field names of the source class. -/
structure InterlinearWord where
  greek_word : String
  «lemma» : String
  morphology : String
  strongs_number : String
  en_gloss : String
  tr_transliteration : String
deriving DecidableEq, Repr

/-- InterlinearVerse: all interlinear data for a single verse, with the
field names of the source class (chapter and verse are ints there). -/
structure InterlinearVerse where
  book : String
  chapter : Nat
  verse : Nat
  words : List InterlinearWord
  free_translation : String
  literal_translation : String
deriving DecidableEq, Repr

/- ---------------------------------------------------------------------
Gloss Resolver: get_strongs_gloss in app.py.
--------------------------------------------------------------------- -/

/-- The ambient state read by get_strongs_gloss: the optional lexicon
module (its get_entry as a function; the inner none models a raised
exception), the backend flag tested by the python-sword guard, and the
optional LOCAL_STRONGS dict loaded from JSON. -/
structure GlossEnv where
  strongsgkModule : Option (String → Option String)
  backendIsPythonSword : Bool
  localStrongs : Option (List (String × String))

/-- get_strongs_gloss: priority chain lexicon, then local JSON dict, then
the trimmed input itself; an empty trimmed input short-circuits to the
empty string. -/
def get_strongs_gloss (env : GlossEnv) (strongs_number : String) : String :=
  let num := pyStrip strongs_number
  if num = "" then ""
  else
    let key_digits := pyLStripGg num
    let lexResult : Option String :=
      match env.strongsgkModule, env.backendIsPythonSword with
      | some getEntry, true =>
        match getEntry key_digits with
        | some gloss_entry =>
          let cleaned_gloss := pyStrip (firstLine gloss_entry)
          if cleaned_gloss ≠ "" then some cleaned_gloss else none
        | none => none
      | _, _ => none
    match lexResult with
    | some g => g
    | none =>
      let localResult : Option String :=
        match env.localStrongs with
        | some m => if m.isEmpty then none else assocLookup m key_digits
        | none => none
      match localResult with
      | some v => v
      | none => num

/- ---------------------------------------------------------------------
Tag Parser: the word_pattern scan loop of fetch_sword_data.  Two source
variants exist: app.py (groups lemma, morph, greek_word) and
sblgnt_flextext_import.py (groups lemma, morph, strongs, greek_word).
--------------------------------------------------------------------- -/

/-- The transliteration character map of the source, in source order. -/
def translit_mapping : List (Char × String) :=
  [('α', "a"), ('β', "b"), ('γ', "g"), ('δ', "d"), ('ε', "e"), ('ζ', "z"), ('η', "ē"),
   ('θ', "th"), ('ι', "i"), ('κ', "k"), ('λ', "l"), ('μ', "m"), ('ν', "n"), ('ξ', "x"),
   ('ο', "o"), ('π', "p"), ('ρ', "r"), ('σ', "s"), ('τ', "t"), ('υ', "u"), ('φ', "ph"),
   ('χ', "ch"), ('ψ', "ps"), ('ω', "ō"), ('ς', "s")]

/-- transliterate: per character, look up the lowercased character in the
map and fall back to the original character unchanged. -/
def transliterate (greek : String) : String :=
  String.join (greek.data.map (fun c =>
    (assocLookup translit_mapping (pyLower c)).getD (String.mk [c])))

/-- One optional attribute group of word_pattern, namely
(?:<ws>+ name="([non-quote]*)")? — on failure the input is left untouched
and the group is absent.  If the group matches but the remainder of the
pattern later fails, regex backtracking over this group cannot succeed
either (the alternative continuations expect a different literal at the
same whitespace position), so committing to the greedy choice is
faithful. -/
def matchAttrGroup (name : List Char) (cs : List Char) : Option String × List Char :=
  match (do
    let (_, a) ← span1 pySpace cs
    let b ← expectStr (name ++ ['=', '"']) a
    let v := b.takeWhile (fun c => c ≠ '"')
    let d ← expectChar '"' (b.dropWhile (fun c => c ≠ '"'))
    pure (String.mk v, d) : Option (String × List Char)) with
  | some (v, rest) => (some v, rest)
  | none => (none, cs)

/-- Captured groups of one app.py word_pattern match. -/
structure AppWordMatch where
  «lemma» : Option String
  morph : Option String
  greek_word : String
deriving DecidableEq, Repr

/-- Match app.py word_pattern at the current position:
<w (lemma group)? (morph group)? > ([non-tag]+) </w>. -/
def appMatchWordAt (cs : List Char) : Option (AppWordMatch × List Char) := do
  let r1 ← expectStr ['<', 'w'] cs
  let (lemmaOpt, r2) := matchAttrGroup ['l', 'e', 'm', 'm', 'a'] r1
  let (morphOpt, r3) := matchAttrGroup ['m', 'o', 'r', 'p', 'h'] r2
  let r4 ← expectChar '>' r3
  let (g, r5) ← span1 (fun c => c ≠ '<') r4
  let r6 ← expectStr ['<', '/', 'w', '>'] r5
  pure (⟨lemmaOpt, morphOpt, String.mk g⟩, r6)

/-- Captured groups of one sblgnt word_pattern match. -/
structure SblWordMatch where
  «lemma» : Option String
  morph : Option String
  strongs : Option String
  greek_word : String
deriving DecidableEq, Repr

/-- Match the sblgnt word_pattern at the current position:
<w (lemma group)? (morph group)? (strong group)? > ([non-tag]+) </w>. -/
def sblMatchWordAt (cs : List Char) : Option (SblWordMatch × List Char) := do
  let r1 ← expectStr ['<', 'w'] cs
  let (lemmaOpt, r2) := matchAttrGroup ['l', 'e', 'm', 'm', 'a'] r1
  let (morphOpt, r3) := matchAttrGroup ['m', 'o', 'r', 'p', 'h'] r2
  let (strongOpt, r4) := matchAttrGroup ['s', 't', 'r', 'o', 'n', 'g'] r3
  let r5 ← expectChar '>' r4
  let (g, r6) ← span1 (fun c => c ≠ '<') r5
  let r7 ← expectStr ['<', '/', 'w', '>'] r6
  pure (⟨lemmaOpt, morphOpt, strongOpt, String.mk g⟩, r7)

/-- Worker for scanMatches with explicit fuel; the fuel starts at the
input length, which dominates the number of scan steps because finditer
advances at least one character per step (every word-tag match consumes at
least the two characters <w). -/
def scanMatchesGo {α : Type} (matchAt : List Char → Option (α × List Char)) :
    Nat → List Char → List α
  | 0, _ => []
  | _, [] => []
  | fuel + 1, c :: cs =>
    match matchAt (c :: cs) with
    | some (m, rest) => m :: scanMatchesGo matchAt fuel rest
    | none => scanMatchesGo matchAt fuel cs

/-- re.finditer: non-overlapping leftmost matches in appearance order. -/
def scanMatches {α : Type} (matchAt : List Char → Option (α × List Char))
    (cs : List Char) : List α :=
  scanMatchesGo matchAt cs.length cs

/-- Match of re.search for lemma.Strong:([non-ws]+) at one position. -/
def matchLemmaStrongAt (cs : List Char) : Option String := do
  let r1 ← expectStr "lemma.Strong:".data cs
  let (v, _) ← span1 (fun c => !pySpace c) r1
  pure (String.mk v)

/-- re.search for lemma.Strong:([non-ws]+): leftmost position at which the
pattern matches, none when no position matches. -/
def searchLemmaStrong : List Char → Option String
  | [] => none
  | c :: cs =>
    match matchLemmaStrongAt (c :: cs) with
    | some v => some v
    | none => searchLemmaStrong cs

/-- Match of re.search for strong:<sp>*G0*(\d+) with re.I at one
position.  The greedy 0* followed by the mandatory (\d+) captures, after
Python backtracking, the digit run with its leading zeros removed — except
that a run consisting only of zeros yields the single digit 0. -/
def matchStrongAt (cs : List Char) : Option String := do
  let r1 ← expectStrCI "strong:".data cs
  let r2 := r1.dropWhile (fun c => c == ' ')
  let r3 ← expectCharCI 'g' r2
  match r3.takeWhile Char.isDigit with
  | [] => none
  | ds =>
    match ds.dropWhile (fun c => c == '0') with
    | [] => pure "0"
    | stripped => pure (String.mk stripped)

/-- re.search for strong:<sp>*G0*(\d+) with re.I: leftmost matching
position. -/
def searchStrong : List Char → Option String
  | [] => none
  | c :: cs =>
    match matchStrongAt (c :: cs) with
    | some v => some v
    | none => searchStrong cs

/-- The per-match body of the fetch_sword_data loop in app.py: strip the
captured groups, extract the Greek lemma after lemma.Strong:, extract and
re-prefix the Strongs number embedded in the lemma attribute, look up the
gloss, and transliterate the surface. -/
def mkAppWord (env : GlossEnv) (m : AppWordMatch) : InterlinearWord :=
  let greek_word := pyStrip m.greek_word
  let lemma_attr := pyStrip (m.«lemma».getD "")
  let morph_attr := pyStrip (m.morph.getD "")
  let lemma_val := (searchLemmaStrong lemma_attr.data).getD ""
  let strongs :=
    match searchStrong lemma_attr.data with
    | some ds => "G" ++ ds
    | none => ""
  { greek_word := greek_word
    «lemma» := lemma_val
    morphology := morph_attr
    strongs_number := strongs
    en_gloss := get_strongs_gloss env strongs
    tr_transliteration := transliterate greek_word }

/-- The parsing half of fetch_sword_data in app.py: the word_pattern scan
over the raw tagged text, one InterlinearWord per match in appearance
order (the preceding backend fetch is abstracted; the raw text is the
input). -/
def fetch_sword_data_words (env : GlossEnv) (raw_text_with_tags : String) :
    List InterlinearWord :=
  (scanMatches appMatchWordAt raw_text_with_tags.data).map (mkAppWord env)

/-- The dummy gloss dict of sblgnt_flextext_import.py, in source order. -/
def placeholder_gloss_map : List (String × String) :=
  [("G1722", "in, on, with"), ("G746", "beginning"), ("G2258", "was, existed"),
   ("G3588", "the (article)"), ("G3056", "word, reason"), ("G2532", "and, also"),
   ("G4314", "to, with, toward"), ("G2316", "God, god")]

/-- get_placeholder_gloss: dict lookup with default N/A. -/
def get_placeholder_gloss (strongs_number : String) : String :=
  (assocLookup placeholder_gloss_map strongs_number).getD "N/A"

/-- The per-match body of the fetch_sword_data loop in
sblgnt_flextext_import.py.  The source calls .strip() on the raw group
values, which raises AttributeError when a group did not participate
(groupdict yields None); none models that raised exception. -/
def mkSblWord (m : SblWordMatch) : Option InterlinearWord := do
  let strongsRaw ← m.strongs
  let strongs := pyStrip strongsRaw
  let greek_word := pyStrip m.greek_word
  let lemmaRaw ← m.«lemma»
  let morphRaw ← m.morph
  pure
    { greek_word := greek_word
      «lemma» := pyStrip lemmaRaw
      morphology := pyStrip morphRaw
      strongs_number := strongs
      en_gloss := get_placeholder_gloss strongs
      tr_transliteration := transliterate greek_word }

/-- The parsing half of fetch_sword_data in sblgnt_flextext_import.py:
scan with its four-group word_pattern, one InterlinearWord per match; none
models an exception escaping the loop. -/
def fetch_sword_data_sbl (raw_text_with_tags : String) : Option (List InterlinearWord) :=
  (scanMatches sblMatchWordAt raw_text_with_tags.data).mapM mkSblWord

/- ---------------------------------------------------------------------
Passage Aggregator: fetch_passage_data in app.py.
--------------------------------------------------------------------- -/

/-- The while loop of fetch_passage_data.  The backend fetch+parse
(fetch_sword_data at the cursor) is the parameter f; none models a raised
exception.  The fuel is the remaining number of loop bodies the iteration
cap still admits (MAX_VERSES minus the bodies already run): the source
increments count on entering the body and breaks when count exceeds
MAX_VERSES, so with fuel zero the loop exits with the verses collected so
far whether or not the guard still holds, which is exactly the break.  The
second component counts the fetch attempts performed. -/
def fetch_passage_loop (f : Nat → Nat → Option InterlinearVerse) (end_ch end_vs : Nat) :
    Nat → Nat → Nat → List InterlinearVerse → List InterlinearVerse × Nat
  | _, _, 0, verses => (verses, 0)
  | cur_ch, cur_vs, fuel + 1, verses =>
    if cur_ch < end_ch ∨ (cur_ch = end_ch ∧ cur_vs ≤ end_vs) then
      match f cur_ch cur_vs with
      | none =>
        let r := fetch_passage_loop f end_ch end_vs (cur_ch + 1) 1 fuel verses
        (r.1, r.2 + 1)
      | some vdata =>
        if vdata.words = [] then
          let r := fetch_passage_loop f end_ch end_vs (cur_ch + 1) 1 fuel verses
          (r.1, r.2 + 1)
        else
          let r := fetch_passage_loop f end_ch end_vs cur_ch (cur_vs + 1) fuel
            (verses ++ [vdata])
          (r.1, r.2 + 1)
    else (verses, 0)

/-- The iteration cap MAX_VERSES of the source. -/
def MAX_VERSES : Nat := 5000

/-- fetch_passage_data: run the loop from the start cursor with the full
iteration budget and an empty verses list. -/
def fetch_passage_data (f : Nat → Nat → Option InterlinearVerse)
    (start_ch start_vs end_ch end_vs : Nat) : List InterlinearVerse :=
  (fetch_passage_loop f end_ch end_vs start_ch start_vs MAX_VERSES []).1

/-- Number of fetch attempts fetch_passage_data performs. -/
def fetch_passage_attempts (f : Nat → Nat → Option InterlinearVerse)
    (start_ch start_vs end_ch end_vs : Nat) : Nat :=
  (fetch_passage_loop f end_ch end_vs start_ch start_vs MAX_VERSES []).2

/- ---------------------------------------------------------------------
Serialization round trip: get_verse_ref and the reference reconstruction
of InterlinearVerse.from_dict.
--------------------------------------------------------------------- -/

/-- Decimal digit character for one digit value. -/
def digitChar (n : Nat) : Char :=
  match n with
  | 0 => '0' | 1 => '1' | 2 => '2' | 3 => '3' | 4 => '4'
  | 5 => '5' | 6 => '6' | 7 => '7' | 8 => '8' | _ => '9'

/-- Decimal rendering worker with fuel (any fuel above the value is
enough, because the value shrinks by a factor of ten per step). -/
def repDecAux : Nat → Nat → List Char
  | 0, _ => []
  | fuel + 1, n => if n < 10 then [digitChar n] else repDecAux fuel (n / 10) ++ [digitChar (n % 10)]

/-- Decimal rendering of a nonnegative int, as produced by an f-string
interpolation of a Python int. -/
def repDec (n : Nat) : String :=
  String.mk (repDecAux (n + 1) n)

/-- get_verse_ref: the canonical Book Chapter:Verse reference string. -/
def get_verse_ref (v : InterlinearVerse) : String :=
  v.book ++ " " ++ repDec v.chapter ++ ":" ++ repDec v.verse

/-- re.split on a single-character class: cut at every matching character
(adjacent separators produce empty parts). -/
def pySplit (p : Char → Bool) : List Char → List (List Char)
  | [] => [[]]
  | c :: cs =>
    if p c then [] :: pySplit p cs
    else
      match pySplit p cs with
      | [] => [[c]]
      | g :: gs => (c :: g) :: gs

/-- int() restricted to the plain digit strings this code path can
produce; none models the raised ValueError on anything else. -/
def pyInt (cs : List Char) : Option Nat :=
  if cs ≠ [] ∧ cs.all Char.isDigit then some (natOfDigits cs) else none

/-- The reference reconstruction of InterlinearVerse.from_dict: split the
verse_ref field at spaces and colons and read parts 0, 1 and 2 (extra
parts are ignored by the source indexing; a missing part or a
non-numeric part raises, modelled by none). -/
def from_dict_ref (verse_ref : String) : Option (String × Nat × Nat) :=
  match pySplit (fun c => c == ' ' || c == ':') verse_ref.data with
  | b :: c :: v :: _ =>
    match pyInt c, pyInt v with
    | some chapter, some verse => some (String.mk b, chapter, verse)
    | _, _ => none
  | _ => none

/- ---------------------------------------------------------------------
Interlinear Document Builder: build_flextext_xml and
build_flextext_xml_for_passage in app.py.  The XML element tree is
modelled by the contents of its items: per word the txt and gls items,
per phrase the baseline txt, the segnum, the word entries and the
phrase-level gls, per document the two title items and the phrase list.
The guid attributes (uuid4 values) and cosmetic indentation are outside
the model.
--------------------------------------------------------------------- -/

/-- One word element: its txt item and its gls item. -/
structure FlexWordItem where
  txt : String
  gls : String
deriving DecidableEq, Repr

/-- One phrase element: baseline txt item, segnum item, word elements and
phrase-level gls item. -/
structure FlexPhrase where
  txt : String
  segnum : String
  wordItems : List FlexWordItem
  gls : String
deriving DecidableEq, Repr

/-- One document: the two title items and the phrase elements in order. -/
structure FlexDoc where
  title : String
  titleAbbreviation : String
  phrases : List FlexPhrase
deriving DecidableEq, Repr

/-- The collaborators the builder reads: get_phrase_translation keyed by
the Book Chapter:Verse reference string it formats (empty string when no
translation module is selected or the lookup raises). -/
structure BuildEnv where
  phraseTranslation : String → String

/-- config_map.get with a default. -/
def cfgGet (config_map : List (String × String)) (key default_ : String) : String :=
  (assocLookup config_map key).getD default_

/-- word.to_dict().get(key, empty): field selection by data key over the
serialized word dict. -/
def wordDictGet (w : InterlinearWord) (key : String) : String :=
  if key = "greek_word" then w.greek_word
  else if key = "lemma" then w.«lemma»
  else if key = "morphology" then w.morphology
  else if key = "strongs_number" then w.strongs_number
  else if key = "en_gloss" then w.en_gloss
  else if key = "tr_transliteration" then w.tr_transliteration
  else ""

/-- A space-joined concatenation, as the str.join of a list. -/
def joinSpace (parts : List String) : String :=
  String.intercalate " " parts

/-- str.replace of one character by a replacement string, applied to every
occurrence. -/
def pyReplaceChar (s : String) (old : Char) (new : List Char) : String :=
  String.mk (s.data.foldr (fun c acc => if c == old then new ++ acc else c :: acc) [])

/-- The per-phrase construction shared by both builder entry points: the
baseline text joined from the selected word field, the verse number item,
the per-word txt/gls entries, and the phrase-level translation chain
(translation module first, then the stripped literal_translation if
truthy, then the joined word glosses). -/
def mkPhraseCore (env : BuildEnv) (config_map : List (String × String))
    (ref verseStr : String) (words : List InterlinearWord)
    (literal_translation : String) : FlexPhrase :=
  let baseline_key := cfgGet config_map "baseline_data_key" "greek_word"
  let gloss_key := cfgGet config_map "word_gloss_data_key" "en_gloss"
  let greek_phrase := pyStrip (joinSpace (words.map (fun w => wordDictGet w baseline_key)))
  let wordItems := words.map (fun w =>
    FlexWordItem.mk (wordDictGet w baseline_key) (wordDictGet w gloss_key))
  let lit0 := env.phraseTranslation ref
  let lit1 := if lit0 = "" then (if literal_translation = "" then ""
    else pyStrip literal_translation) else lit0
  let lit2 := if lit1 = "" then
    pyStrip (joinSpace (words.map (fun w => wordDictGet w gloss_key))) else lit1
  { txt := greek_phrase, segnum := verseStr, wordItems := wordItems, gls := lit2 }

/-- The body of build_flextext_xml over the strings the f-string
interpolation produces for book, chapter and verse (build_flextext_xml
passes decimal renderings of ints here; the empty-passage placeholder
passes the empty string as the chapter rendering). -/
def buildSingleCore (env : BuildEnv) (config_map : List (String × String))
    (bookStr chapterStr verseStr : String) (words : List InterlinearWord)
    (literal_translation : String) : FlexDoc :=
  let title := bookStr ++ " " ++ chapterStr ++ ":" ++ verseStr
  let abbrevStr := pyReplaceChar (pyReplaceChar title ' ' []) ':' ['_']
  { title := title
    titleAbbreviation := abbrevStr
    phrases := [mkPhraseCore env config_map title verseStr words literal_translation] }

/-- build_flextext_xml: the single-verse document. -/
def build_flextext_xml (env : BuildEnv) (verse_data : InterlinearVerse)
    (config_map : List (String × String)) : FlexDoc :=
  buildSingleCore env config_map verse_data.book (repDec verse_data.chapter)
    (repDec verse_data.verse) verse_data.words verse_data.literal_translation

/-- build_flextext_xml_for_passage: one phrase per verse in one paragraph;
an empty verses list delegates to build_flextext_xml on the placeholder
InterlinearVerse with empty book, empty (string) chapter and verse 0,
whose f-string renderings are the strings passed here. -/
def build_flextext_xml_for_passage (env : BuildEnv) (verses : List InterlinearVerse)
    (config_map : List (String × String)) : FlexDoc :=
  match verses with
  | [] => buildSingleCore env config_map "" "" "0" [] ""
  | first :: rest =>
    let last := rest.getLastD first
    let refFirst := get_verse_ref first
    let title := if (first.chapter, first.verse) = (last.chapter, last.verse) then refFirst
      else refFirst ++ "-" ++ repDec last.chapter ++ ":" ++ repDec last.verse
    let abbrevStr := pyReplaceChar (pyReplaceChar title ' ' []) ':' ['_']
    { title := title
      titleAbbreviation := abbrevStr
      phrases := (first :: rest).map (fun v =>
        mkPhraseCore env config_map (get_verse_ref v) (repDec v.verse) v.words
          v.literal_translation) }

/- ---------------------------------------------------------------------
Translation selection: Api.set_translation in app.py.
--------------------------------------------------------------------- -/

/-- The dict returned to the frontend by set_translation: ok with the new
selection, or not-ok with an error message. -/
inductive SetTranslationResult where
  | ok (selected : Option String)
  | error (msg : String)
deriving DecidableEq, Repr

/-- Api.set_translation as a function of the process-wide state it reads
and writes: the loaded TRANSLATION_MODULES (their ids) and the current
SELECTED_TRANSLATION_ID.  The returned pair is the frontend result and the
SELECTED_TRANSLATION_ID after the call. -/
def set_translation (translation_modules : List String)
    (selected_translation_id : Option String) (module_id : String) :
    SetTranslationResult × Option String :=
  if module_id = "NONE" then (.ok none, none)
  else if module_id ∈ translation_modules then (.ok (some module_id), some module_id)
  else (.error ("Translation \x27" ++ module_id ++ "\x27 not available."),
    selected_translation_id)


/- ---------------------------------------------------------------------
Concrete backends, environments and inputs used by witnesses and
counterexamples.
--------------------------------------------------------------------- -/

/-- An environment with no lexicon module and no local JSON dict. -/
def envNoLexicon : GlossEnv := ⟨none, false, none⟩

/-- An environment whose local JSON dict maps key 3056 to the empty
string (nothing in the loading code forbids empty gloss values). -/
def envEmptyGlossValue : GlossEnv := ⟨none, false, some [("3056", "")]⟩

/-- A concrete word for sample verses. -/
def wordSample : InterlinearWord := ⟨"Θεός", "Θεός", "N-NSM", "G2316", "God", "theos"⟩

/-- A concrete verse with one word. -/
def verseSample : InterlinearVerse := ⟨"John", 1, 1, [wordSample], "", ""⟩

/-- A backend whose fetch always raises. -/
def backendFail : Nat → Nat → Option InterlinearVerse := fun _ _ => none

/-- A backend that always returns the same non-empty verse. -/
def backendConst : Nat → Nat → Option InterlinearVerse := fun _ _ => some verseSample

/-- The single well-formed word tag of the Tag Parser test property. -/
def singleLogosTag : String :=
  "<w lemma=\"lemma.Strong:λόγος strong: G3056\" morph=\"N-NSM\">λόγος</w>"

/-- A word tag carrying the lexical key directly as an attribute value. -/
def directKeyTag : String := "<w lemma=\"G3056\" morph=\"N-NSM\" strong=\"G3056\">λόγος</w>"

/-- A direct-key word tag whose key attribute has a leading zero. -/
def directKeyZerosTag : String :=
  "<w lemma=\"G746\" morph=\"N-DSF\" strong=\"G0746\">ἀρχῇ</w>"

/-- A word tag with the key embedded in the lemma attribute, with leading
zeros in the digits. -/
def embeddedKeyZerosTag : String :=
  "<w lemma=\"lemma.Strong:ἀρχή strong: G0746\" morph=\"N-DSF\">ἀρχῇ</w>"

/-- A verse whose book name contains a space. -/
def verseWithSpaceBook : InterlinearVerse := ⟨"1 John", 2, 3, [], "", ""⟩

/- ---------------------------------------------------------------------
Word-tag families the Tag Parser claims quantify over: the raw text of
one tag of each attribute shape.
--------------------------------------------------------------------- -/

/-- One word tag with lemma and morph attributes (the shape app.py
word_pattern fully matches). -/
def tag_with_lemma_morph (a m s : String) : String :=
  "<w lemma=\"" ++ a ++ "\" morph=\"" ++ m ++ "\">" ++ s ++ "</w>"

/-- One word tag with lemma, morph and strong attributes: the direct-key
encoding of the sblgnt variant. -/
def tag_with_lemma_morph_strong (a m k s : String) : String :=
  "<w lemma=\"" ++ a ++ "\" morph=\"" ++ m ++ "\" strong=\"" ++ k ++ "\">" ++ s ++ "</w>"

/-- One word tag with no attributes at all. -/
def tag_plain (s : String) : String := "<w>" ++ s ++ "</w>"

/-- The lemma-attribute value of the embedded encoding: the Greek lemma
after the lemma.Strong: marker followed by the strong: G digits
sub-marker. -/
def embedded_lemma_attr (l d : String) : String :=
  "lemma.Strong:" ++ l ++ " strong: G" ++ d

/-- The digit part with leading zeros stripped, an all-zero run giving
the single digit 0: the capture of the pattern G0*(digits) after
backtracking, which is the canonical form the claim describes. -/
def strip_leading_zeros (d : String) : String :=
  match d.data.dropWhile (fun c => c == '0') with
  | [] => "0"
  | stripped => String.mk stripped

/- ---------------------------------------------------------------------
Helper lemmas.
--------------------------------------------------------------------- -/

/-- Membership of a successful assocLookup result. -/
theorem assocLookup_mem {α β : Type} [DecidableEq α] (m : List (α × β)) (k : α) (v : β)
    (h : assocLookup m k = some v) : (k, v) ∈ m := by
  induction m with
  | nil => simp [assocLookup] at h
  | cons p rest ih =>
    obtain ⟨k', v'⟩ := p
    by_cases hk : k' = k
    · subst hk
      simp [assocLookup] at h
      simp [h]
    · simp [assocLookup, hk] at h
      exact List.mem_cons_of_mem _ (ih h)

/-- The loop performs at most fuel fetch attempts. -/
theorem fetch_passage_loop_attempts_le (f : Nat → Nat → Option InterlinearVerse)
    (end_ch end_vs : Nat) :
    ∀ (fuel cur_ch cur_vs : Nat) (verses : List InterlinearVerse),
      (fetch_passage_loop f end_ch end_vs cur_ch cur_vs fuel verses).2 ≤ fuel := by
  intro fuel
  induction fuel with
  | zero => intro ch vs acc; simp [fetch_passage_loop]
  | succ n ih =>
    intro ch vs acc
    by_cases hg : ch < end_ch ∨ (ch = end_ch ∧ vs ≤ end_vs)
    · cases hf : f ch vs with
      | none =>
        simp only [fetch_passage_loop, if_pos hg, hf]
        exact Nat.succ_le_succ (ih (ch + 1) 1 acc)
      | some vdata =>
        by_cases hw : vdata.words = []
        · simp only [fetch_passage_loop, if_pos hg, hf, if_pos hw]
          exact Nat.succ_le_succ (ih (ch + 1) 1 acc)
        · simp only [fetch_passage_loop, if_pos hg, hf, if_neg hw]
          exact Nat.succ_le_succ (ih ch (vs + 1) (acc ++ [vdata]))
    · simp only [fetch_passage_loop, if_neg hg]
      exact Nat.zero_le _

/-- expectStr consumes exactly its own prefix. -/
theorem expectStr_self_append (p rest : List Char) : expectStr p (p ++ rest) = some rest := by
  induction p with
  | nil => rfl
  | cons c cs ih => simp [expectStr, ih]

/-- String append acts as list append on the underlying characters. -/
theorem str_data_append (s t : String) : (s ++ t).data = s.data ++ t.data := rfl

/-- takeWhile keeps a list all of whose elements satisfy the test. -/
theorem takeWhile_eq_self_of (p : Char → Bool) (l : List Char) (h : ∀ c ∈ l, p c = true) :
    l.takeWhile p = l := by
  induction l with
  | nil => rfl
  | cons c cs ih =>
    simp [List.takeWhile_cons, h c (List.mem_cons_self c cs),
      ih (fun x hx => h x (List.mem_cons_of_mem c hx))]

/-- takeWhile stops exactly at the first failing element. -/
theorem takeWhile_append_stop (p : Char → Bool) (a : List Char) (b : Char) (rest : List Char)
    (ha : ∀ c ∈ a, p c = true) (hb : p b = false) :
    (a ++ b :: rest).takeWhile p = a := by
  induction a with
  | nil => simp [List.takeWhile_cons, hb]
  | cons c cs ih =>
    simp [List.takeWhile_cons, ha c (List.mem_cons_self c cs),
      ih (fun x hx => ha x (List.mem_cons_of_mem c hx))]

/-- dropWhile drops exactly up to the first failing element. -/
theorem dropWhile_append_stop (p : Char → Bool) (a : List Char) (b : Char) (rest : List Char)
    (ha : ∀ c ∈ a, p c = true) (hb : p b = false) :
    (a ++ b :: rest).dropWhile p = b :: rest := by
  induction a with
  | nil => simp [List.dropWhile_cons, hb]
  | cons c cs ih =>
    simp [List.dropWhile_cons, ha c (List.mem_cons_self c cs),
      ih (fun x hx => ha x (List.mem_cons_of_mem c hx))]

/-- span1 on a nonempty all-satisfying run followed by a failing
element. -/
theorem span1_append_stop (p : Char → Bool) (a : List Char) (b : Char) (rest : List Char)
    (h1 : a ≠ []) (ha : ∀ c ∈ a, p c = true) (hb : p b = false) :
    span1 p (a ++ b :: rest) = some (a, b :: rest) := by
  unfold span1
  rw [takeWhile_append_stop p a b rest ha hb, dropWhile_append_stop p a b rest ha hb]
  cases a with
  | nil => exact absurd rfl h1
  | cons x xs => rfl

/-- dropWhile is the identity when the head already fails the test. -/
theorem dropWhile_eq_self_of_head (p : Char → Bool) (l : List Char)
    (h : ∀ c, l.head? = some c → p c = false) : l.dropWhile p = l := by
  cases l with
  | nil => rfl
  | cons c cs => simp [List.dropWhile_cons, h c rfl]

/-- str.strip leaves a string untouched when its first and last
characters are not whitespace. -/
theorem stripChars_eq_self (l : List Char)
    (h1 : ∀ c, l.head? = some c → pySpace c = false)
    (h2 : ∀ c, l.getLast? = some c → pySpace c = false) :
    stripChars l = l := by
  unfold stripChars
  rw [dropWhile_eq_self_of_head pySpace l h1,
    dropWhile_eq_self_of_head pySpace l.reverse
      (by intro c hc; exact h2 c (by simpa [List.head?_reverse] using hc)),
    List.reverse_reverse]

/-- The scan worker returns nothing on exhausted input. -/
theorem scanMatchesGo_nil {α : Type} (matchAt : List Char → Option (α × List Char))
    (fuel : Nat) : scanMatchesGo matchAt fuel [] = [] := by
  cases fuel <;> rfl

/-- A scan over text that matches in full at its first position yields
exactly that one match. -/
theorem scanMatches_single {α : Type} (matchAt : List Char → Option (α × List Char))
    (c : Char) (cs : List Char) (m : α) (h : matchAt (c :: cs) = some (m, [])) :
    scanMatches matchAt (c :: cs) = [m] := by
  unfold scanMatches
  simp only [List.length_cons, scanMatchesGo, h, scanMatchesGo_nil]

/-- A digit character is not a quote. -/
theorem isDigit_ne_quote (c : Char) (h : c.isDigit = true) : c ≠ '"' := by
  intro he; subst he; exact absurd h (by decide)

/-- A digit character is not whitespace. -/
theorem isDigit_not_pySpace (c : Char) (h : c.isDigit = true) : pySpace c = false := by
  have h1 : c ≠ ' ' := by intro he; subst he; exact absurd h (by decide)
  have h2 : c ≠ '\t' := by intro he; subst he; exact absurd h (by decide)
  have h3 : c ≠ '\n' := by intro he; subst he; exact absurd h (by decide)
  have h4 : c ≠ '\r' := by intro he; subst he; exact absurd h (by decide)
  have h5 : c ≠ '\x0b' := by intro he; subst he; exact absurd h (by decide)
  have h6 : c ≠ '\x0c' := by intro he; subst he; exact absurd h (by decide)
  simp [pySpace, h1, h2, h3, h4, h5, h6]

/-- A character known not to be whitespace is not the space character. -/
theorem not_space_of_not_pySpace (c : Char) (h : pySpace c = false) : (c == ' ') = false := by
  by_cases hc : c = ' '
  · subst hc; exact absurd h (by decide)
  · simp [hc]

/-- An attribute group matches on one space, the attribute name, and a
quote-free value between quotes. -/
theorem matchAttrGroup_present (n0 : Char) (nrest V rest : List Char)
    (hn0 : pySpace n0 = false) (hV : ∀ c ∈ V, c ≠ '"') :
    matchAttrGroup (n0 :: nrest)
      (' ' :: ((n0 :: nrest) ++ '=' :: '"' :: (V ++ '"' :: rest))) =
      (some (String.mk V), rest) := by
  have hsp : pySpace ' ' = true := by decide
  have h1 : span1 pySpace (' ' :: n0 :: (nrest ++ '=' :: '"' :: (V ++ '"' :: rest))) =
      some ([' '], n0 :: (nrest ++ '=' :: '"' :: (V ++ '"' :: rest))) := by
    unfold span1
    simp [List.takeWhile_cons, List.dropWhile_cons, hsp, hn0]
  have h2 : expectStr (n0 :: (nrest ++ ['=', '"']))
      (n0 :: (nrest ++ '=' :: '"' :: (V ++ '"' :: rest))) = some (V ++ '"' :: rest) := by
    have h := expectStr_self_append (n0 :: (nrest ++ ['=', '"'])) (V ++ '"' :: rest)
    simpa using h
  have h3 : List.takeWhile (fun c => !decide (c = '"')) (V ++ '"' :: rest) = V := by
    refine takeWhile_append_stop _ V '"' rest ?_ (by decide)
    intro c hc
    simp [hV c hc]
  have h4 : List.dropWhile (fun c => !decide (c = '"')) (V ++ '"' :: rest) = '"' :: rest := by
    refine dropWhile_append_stop _ V '"' rest ?_ (by decide)
    intro c hc
    simp [hV c hc]
  have h5 : expectChar '"' ('"' :: rest) = some rest := by simp [expectChar]
  simp [matchAttrGroup, h1, h2, h3, h4, h5]

/-- An attribute group leaves the input untouched when the next character
is not whitespace. -/
theorem matchAttrGroup_absent (name : List Char) (c : Char) (cs : List Char)
    (hc : pySpace c = false) : matchAttrGroup name (c :: cs) = (none, c :: cs) := by
  unfold matchAttrGroup span1
  simp [List.takeWhile_cons, hc]

/-- The app.py word_pattern matches one full lemma-and-morph tag,
capturing the two attribute values and the surface. -/
theorem appMatchWordAt_full (A M S : List Char)
    (hA : ∀ c ∈ A, c ≠ '"') (hM : ∀ c ∈ M, c ≠ '"')
    (hS1 : S ≠ []) (hS : ∀ c ∈ S, c ≠ '<') :
    appMatchWordAt ('<' :: 'w' :: ' ' :: 'l' :: 'e' :: 'm' :: 'm' :: 'a' :: '=' :: '"' ::
        (A ++ '"' :: ' ' :: 'm' :: 'o' :: 'r' :: 'p' :: 'h' :: '=' :: '"' ::
          (M ++ '"' :: '>' :: (S ++ ['<', '/', 'w', '>'])))) =
      some (⟨some (String.mk A), some (String.mk M), String.mk S⟩, []) := by
  have hw : ∀ X : List Char, expectStr ['<', 'w'] ('<' :: 'w' :: X) = some X := by
    intro X; simp [expectStr]
  have h1 : ∀ X : List Char, matchAttrGroup ['l', 'e', 'm', 'm', 'a']
      (' ' :: 'l' :: 'e' :: 'm' :: 'm' :: 'a' :: '=' :: '"' :: (A ++ '"' :: X)) =
      (some (String.mk A), X) := by
    intro X
    have h := matchAttrGroup_present 'l' ['e', 'm', 'm', 'a'] A X (by decide) hA
    simpa using h
  have h2 : ∀ X : List Char, matchAttrGroup ['m', 'o', 'r', 'p', 'h']
      (' ' :: 'm' :: 'o' :: 'r' :: 'p' :: 'h' :: '=' :: '"' :: (M ++ '"' :: X)) =
      (some (String.mk M), X) := by
    intro X
    have h := matchAttrGroup_present 'm' ['o', 'r', 'p', 'h'] M X (by decide) hM
    simpa using h
  have h3 : ∀ X : List Char, expectChar '>' ('>' :: X) = some X := by
    intro X; simp [expectChar]
  have h4 : ∀ X : List Char, span1 (fun c => !decide (c = '<')) (S ++ '<' :: X) =
      some (S, '<' :: X) := by
    intro X
    refine span1_append_stop _ S '<' X hS1 ?_ (by decide)
    intro c hc
    simp [hS c hc]
  have h5 : expectStr ['<', '/', 'w', '>'] ['<', '/', 'w', '>'] = some [] := rfl
  simp [appMatchWordAt, hw, h1, h2, h3, h4, h5]

/-- The sblgnt word_pattern matches one full lemma-morph-strong tag,
capturing the three attribute values and the surface. -/
theorem sblMatchWordAt_full (A M K S : List Char)
    (hA : ∀ c ∈ A, c ≠ '"') (hM : ∀ c ∈ M, c ≠ '"') (hK : ∀ c ∈ K, c ≠ '"')
    (hS1 : S ≠ []) (hS : ∀ c ∈ S, c ≠ '<') :
    sblMatchWordAt ('<' :: 'w' :: ' ' :: 'l' :: 'e' :: 'm' :: 'm' :: 'a' :: '=' :: '"' ::
        (A ++ '"' :: ' ' :: 'm' :: 'o' :: 'r' :: 'p' :: 'h' :: '=' :: '"' ::
          (M ++ '"' :: ' ' :: 's' :: 't' :: 'r' :: 'o' :: 'n' :: 'g' :: '=' :: '"' ::
            (K ++ '"' :: '>' :: (S ++ ['<', '/', 'w', '>']))))) =
      some (⟨some (String.mk A), some (String.mk M), some (String.mk K), String.mk S⟩, []) := by
  have hw : ∀ X : List Char, expectStr ['<', 'w'] ('<' :: 'w' :: X) = some X := by
    intro X; simp [expectStr]
  have h1 : ∀ X : List Char, matchAttrGroup ['l', 'e', 'm', 'm', 'a']
      (' ' :: 'l' :: 'e' :: 'm' :: 'm' :: 'a' :: '=' :: '"' :: (A ++ '"' :: X)) =
      (some (String.mk A), X) := by
    intro X
    have h := matchAttrGroup_present 'l' ['e', 'm', 'm', 'a'] A X (by decide) hA
    simpa using h
  have h2 : ∀ X : List Char, matchAttrGroup ['m', 'o', 'r', 'p', 'h']
      (' ' :: 'm' :: 'o' :: 'r' :: 'p' :: 'h' :: '=' :: '"' :: (M ++ '"' :: X)) =
      (some (String.mk M), X) := by
    intro X
    have h := matchAttrGroup_present 'm' ['o', 'r', 'p', 'h'] M X (by decide) hM
    simpa using h
  have h2s : ∀ X : List Char, matchAttrGroup ['s', 't', 'r', 'o', 'n', 'g']
      (' ' :: 's' :: 't' :: 'r' :: 'o' :: 'n' :: 'g' :: '=' :: '"' :: (K ++ '"' :: X)) =
      (some (String.mk K), X) := by
    intro X
    have h := matchAttrGroup_present 's' ['t', 'r', 'o', 'n', 'g'] K X (by decide) hK
    simpa using h
  have h3 : ∀ X : List Char, expectChar '>' ('>' :: X) = some X := by
    intro X; simp [expectChar]
  have h4 : ∀ X : List Char, span1 (fun c => !decide (c = '<')) (S ++ '<' :: X) =
      some (S, '<' :: X) := by
    intro X
    refine span1_append_stop _ S '<' X hS1 ?_ (by decide)
    intro c hc
    simp [hS c hc]
  have h5 : expectStr ['<', '/', 'w', '>'] ['<', '/', 'w', '>'] = some [] := rfl
  simp [sblMatchWordAt, hw, h1, h2, h2s, h3, h4, h5]

/-- The sblgnt word_pattern matches one attribute-free tag with all three
groups absent. -/
theorem sblMatchWordAt_plain (S : List Char) (hS1 : S ≠ []) (hS : ∀ c ∈ S, c ≠ '<') :
    sblMatchWordAt ('<' :: 'w' :: '>' :: (S ++ ['<', '/', 'w', '>'])) =
      some (⟨none, none, none, String.mk S⟩, []) := by
  have hw : ∀ X : List Char, expectStr ['<', 'w'] ('<' :: 'w' :: X) = some X := by
    intro X; simp [expectStr]
  have habs : ∀ (name : List Char) (X : List Char),
      matchAttrGroup name ('>' :: X) = (none, '>' :: X) := by
    intro name X
    exact matchAttrGroup_absent name '>' X (by decide)
  have h3 : ∀ X : List Char, expectChar '>' ('>' :: X) = some X := by
    intro X; simp [expectChar]
  have h4 : ∀ X : List Char, span1 (fun c => !decide (c = '<')) (S ++ '<' :: X) =
      some (S, '<' :: X) := by
    intro X
    refine span1_append_stop _ S '<' X hS1 ?_ (by decide)
    intro c hc
    simp [hS c hc]
  have h5 : expectStr ['<', '/', 'w', '>'] ['<', '/', 'w', '>'] = some [] := rfl
  simp [sblMatchWordAt, hw, habs, h3, h4, h5]

/-- One unfolding step of the strong-marker search. -/
theorem searchStrong_cons_of_none (c : Char) (cs : List Char)
    (h : matchStrongAt (c :: cs) = none) : searchStrong (c :: cs) = searchStrong cs := by
  rw [show searchStrong (c :: cs) = (match matchStrongAt (c :: cs) with
    | some v => some v | none => searchStrong cs) from rfl, h]

/-- The search skips a position whose character cannot open the
case-insensitive strong: literal. -/
theorem searchStrong_cons_fail (c : Char) (cs : List Char)
    (h : (pyLower c == 's') = false) : searchStrong (c :: cs) = searchStrong cs := by
  refine searchStrong_cons_of_none c cs ?_
  have hs : pyLower 's' = 's' := by decide
  have hsd : ("strong:" : String).data = ['s', 't', 'r', 'o', 'n', 'g', ':'] := rfl
  simp [matchStrongAt, expectStrCI, hsd, hs, h]

/-- The search skips a whole run of characters none of which can open the
case-insensitive strong: literal. -/
theorem searchStrong_append_fail (l rest : List Char)
    (h : ∀ c ∈ l, (pyLower c == 's') = false) :
    searchStrong (l ++ rest) = searchStrong rest := by
  induction l with
  | nil => rfl
  | cons c cs ih =>
    rw [List.cons_append, searchStrong_cons_fail c _ (h c (List.mem_cons_self c cs))]
    exact ih (fun x hx => h x (List.mem_cons_of_mem c hx))

/-- The strong-number pattern succeeds on the strong: G digits marker,
capturing the digits with leading zeros stripped (an all-zero run gives
the single digit 0, by the backtracking of G0* against the mandatory
digit group). -/
theorem matchStrongAt_marker (ds : List Char) (hds1 : ds ≠ [])
    (hds : ∀ c ∈ ds, c.isDigit = true) :
    matchStrongAt ('s' :: 't' :: 'r' :: 'o' :: 'n' :: 'g' :: ':' :: ' ' :: 'G' :: ds) =
      some (match ds.dropWhile (fun c => c == '0') with
        | [] => "0"
        | stripped => String.mk stripped) := by
  have hsd : ("strong:" : String).data = ['s', 't', 'r', 'o', 'n', 'g', ':'] := rfl
  have hG : pyLower 'G' = 'g' := by decide
  have hg : pyLower 'g' = 'g' := by decide
  have hGs : ('G' == ' ') = false := by decide
  have htw : ds.takeWhile Char.isDigit = ds := takeWhile_eq_self_of _ ds hds
  obtain ⟨d0, ds', rfl⟩ : ∃ d0 ds', ds = d0 :: ds' := by
    cases ds with
    | nil => exact absurd rfl hds1
    | cons a l => exact ⟨a, l, rfl⟩
  cases h0 : (d0 :: ds').dropWhile (fun c => c == '0') with
  | nil =>
    simp [matchStrongAt, expectStrCI, expectCharCI, hsd, hG, hg, hGs,
      List.dropWhile_cons, htw, h0]
  | cons z zs =>
    simp [matchStrongAt, expectStrCI, expectCharCI, hsd, hG, hg, hGs,
      List.dropWhile_cons, htw, h0]

/-- One unfolding step of the lemma.Strong: search. -/
theorem searchLemmaStrong_cons (c : Char) (cs : List Char) :
    searchLemmaStrong (c :: cs) = (match matchLemmaStrongAt (c :: cs) with
      | some v => some v | none => searchLemmaStrong cs) := rfl

/-- On an embedded-encoding lemma attribute the lemma.Strong: search
captures exactly the whitespace-free lemma text. -/
theorem searchLemmaStrong_embedded (L D : String) (hL1 : L.data ≠ [])
    (hLs : ∀ c ∈ L.data, pySpace c = false) :
    searchLemmaStrong (embedded_lemma_attr L D).data = some L := by
  have e1 : ("lemma.Strong:" : String).data =
      ['l', 'e', 'm', 'm', 'a', '.', 'S', 't', 'r', 'o', 'n', 'g', ':'] := rfl
  have hd : (embedded_lemma_attr L D).data =
      'l' :: 'e' :: 'm' :: 'm' :: 'a' :: '.' :: 'S' :: 't' :: 'r' :: 'o' :: 'n' :: 'g' :: ':' ::
        (L.data ++ ' ' :: 's' :: 't' :: 'r' :: 'o' :: 'n' :: 'g' :: ':' :: ' ' :: 'G' ::
          D.data) := by
    have e2 : (" strong: G" : String).data =
        [' ', 's', 't', 'r', 'o', 'n', 'g', ':', ' ', 'G'] := rfl
    simp [embedded_lemma_attr, str_data_append, e1, e2]
  have hexp : expectStr ("lemma.Strong:" : String).data
      ('l' :: 'e' :: 'm' :: 'm' :: 'a' :: '.' :: 'S' :: 't' :: 'r' :: 'o' :: 'n' :: 'g' :: ':' ::
        (L.data ++ ' ' :: 's' :: 't' :: 'r' :: 'o' :: 'n' :: 'g' :: ':' :: ' ' :: 'G' ::
          D.data)) =
      some (L.data ++ ' ' :: 's' :: 't' :: 'r' :: 'o' :: 'n' :: 'g' :: ':' :: ' ' :: 'G' ::
        D.data) := by
    have h := expectStr_self_append ("lemma.Strong:" : String).data
      (L.data ++ ' ' :: 's' :: 't' :: 'r' :: 'o' :: 'n' :: 'g' :: ':' :: ' ' :: 'G' :: D.data)
    simpa [e1] using h
  have hspan : span1 (fun c => !pySpace c)
      (L.data ++ ' ' :: 's' :: 't' :: 'r' :: 'o' :: 'n' :: 'g' :: ':' :: ' ' :: 'G' ::
        D.data) =
      some (L.data, ' ' :: 's' :: 't' :: 'r' :: 'o' :: 'n' :: 'g' :: ':' :: ' ' :: 'G' ::
        D.data) := by
    refine span1_append_stop _ L.data ' ' _ hL1 ?_ (by decide)
    intro c hc
    simp [hLs c hc]
  rw [hd, searchLemmaStrong_cons]
  simp [matchLemmaStrongAt, hexp, hspan]

/-- On an embedded-encoding lemma attribute whose lemma text cannot open
or continue into a false strong: marker, the case-insensitive search
finds exactly the real strong: G digits sub-marker and captures its
digits with leading zeros stripped. -/
theorem searchStrong_embedded (L D : String) (hL1 : L.data ≠ [])
    (hLs : ∀ c ∈ L.data, pySpace c = false)
    (hLsg : ∀ c ∈ L.data, (pyLower c == 's') = false ∧ (pyLower c == 'g') = false)
    (hD1 : D.data ≠ []) (hD : ∀ c ∈ D.data, c.isDigit = true) :
    searchStrong (embedded_lemma_attr L D).data = some (strip_leading_zeros D) := by
  have hd : (embedded_lemma_attr L D).data =
      'l' :: 'e' :: 'm' :: 'm' :: 'a' :: '.' :: 'S' :: 't' :: 'r' :: 'o' :: 'n' :: 'g' :: ':' ::
        (L.data ++ ' ' :: 's' :: 't' :: 'r' :: 'o' :: 'n' :: 'g' :: ':' :: ' ' :: 'G' ::
          D.data) := by
    have e1 : ("lemma.Strong:" : String).data =
        ['l', 'e', 'm', 'm', 'a', '.', 'S', 't', 'r', 'o', 'n', 'g', ':'] := rfl
    have e2 : (" strong: G" : String).data =
        [' ', 's', 't', 'r', 'o', 'n', 'g', ':', ' ', 'G'] := rfl
    simp [embedded_lemma_attr, str_data_append, e1, e2]
  obtain ⟨x, L', hL'⟩ : ∃ x L', L.data = x :: L' := by
    cases hx : L.data with
    | nil => exact absurd hx hL1
    | cons a l => exact ⟨a, l, rfl⟩
  have hxmem : x ∈ L.data := by rw [hL']; exact List.mem_cons_self x L'
  have hxsp : (x == ' ') = false := not_space_of_not_pySpace x (hLs x hxmem)
  have hxg : (pyLower x == 'g') = false := (hLsg x hxmem).2
  rw [hd, hL']
  simp only [List.cons_append]
  rw [searchStrong_cons_fail 'l' _ (by decide), searchStrong_cons_fail 'e' _ (by decide),
    searchStrong_cons_fail 'm' _ (by decide), searchStrong_cons_fail 'm' _ (by decide),
    searchStrong_cons_fail 'a' _ (by decide), searchStrong_cons_fail '.' _ (by decide)]
  have hfail : matchStrongAt ('S' :: 't' :: 'r' :: 'o' :: 'n' :: 'g' :: ':' :: x ::
      (L' ++ ' ' :: 's' :: 't' :: 'r' :: 'o' :: 'n' :: 'g' :: ':' :: ' ' :: 'G' ::
        D.data)) = none := by
    have hsd : ("strong:" : String).data = ['s', 't', 'r', 'o', 'n', 'g', ':'] := rfl
    have hS' : pyLower 'S' = 's' := by decide
    have hs' : pyLower 's' = 's' := by decide
    have hg' : pyLower 'g' = 'g' := by decide
    have hxg2 : ¬ pyLower x = 'g' := by simpa using hxg
    have hxsp2 : ¬ x = ' ' := by simpa using hxsp
    simp [matchStrongAt, expectStrCI, expectCharCI, hsd, hS', hs', hg',
      List.dropWhile_cons, hxsp, hxg, hxg2, hxsp2]
  rw [searchStrong_cons_of_none _ _ hfail]
  rw [searchStrong_cons_fail 't' _ (by decide), searchStrong_cons_fail 'r' _ (by decide),
    searchStrong_cons_fail 'o' _ (by decide), searchStrong_cons_fail 'n' _ (by decide),
    searchStrong_cons_fail 'g' _ (by decide), searchStrong_cons_fail ':' _ (by decide)]
  have hskip : searchStrong ((x :: L') ++ (' ' :: 's' :: 't' :: 'r' :: 'o' :: 'n' :: 'g' ::
      ':' :: ' ' :: 'G' :: D.data)) =
      searchStrong (' ' :: 's' :: 't' :: 'r' :: 'o' :: 'n' :: 'g' :: ':' :: ' ' :: 'G' ::
        D.data) := by
    refine searchStrong_append_fail (x :: L') _ ?_
    intro c hc
    exact (hLsg c (by rw [hL']; exact hc)).1
  simp only [List.cons_append] at hskip
  rw [hskip, searchStrong_cons_fail ' ' _ (by decide)]
  rw [show searchStrong ('s' :: 't' :: 'r' :: 'o' :: 'n' :: 'g' :: ':' :: ' ' :: 'G' ::
      D.data) = (match matchStrongAt ('s' :: 't' :: 'r' :: 'o' :: 'n' :: 'g' :: ':' :: ' ' ::
        'G' :: D.data) with
      | some v => some v
      | none => searchStrong ('t' :: 'r' :: 'o' :: 'n' :: 'g' :: ':' :: ' ' :: 'G' ::
        D.data)) from rfl,
    matchStrongAt_marker D.data hD1 hD]
  rfl

/-- The characters of an embedded-encoding lemma attribute. -/
theorem embedded_lemma_attr_data (L D : String) :
    (embedded_lemma_attr L D).data =
      'l' :: 'e' :: 'm' :: 'm' :: 'a' :: '.' :: 'S' :: 't' :: 'r' :: 'o' :: 'n' :: 'g' :: ':' ::
        (L.data ++ ' ' :: 's' :: 't' :: 'r' :: 'o' :: 'n' :: 'g' :: ':' :: ' ' :: 'G' ::
          D.data) := by
  have e1 : ("lemma.Strong:" : String).data =
      ['l', 'e', 'm', 'm', 'a', '.', 'S', 't', 'r', 'o', 'n', 'g', ':'] := rfl
  have e2 : (" strong: G" : String).data =
      [' ', 's', 't', 'r', 'o', 'n', 'g', ':', ' ', 'G'] := rfl
  simp [embedded_lemma_attr, str_data_append, e1, e2]

/-- An embedded-encoding lemma attribute has no surrounding whitespace,
so str.strip leaves it untouched. -/
theorem pyStrip_embedded (L D : String) (hD1 : D.data ≠ [])
    (hD : ∀ c ∈ D.data, c.isDigit = true) :
    pyStrip (embedded_lemma_attr L D) = embedded_lemma_attr L D := by
  have hhead : ∀ c, (embedded_lemma_attr L D).data.head? = some c → pySpace c = false := by
    intro c hc
    rw [embedded_lemma_attr_data] at hc
    simp only [List.head?_cons, Option.some.injEq] at hc
    subst hc
    decide
  have hlast : ∀ c, (embedded_lemma_attr L D).data.getLast? = some c → pySpace c = false := by
    intro c hc
    have hd2 : (embedded_lemma_attr L D).data =
        (("lemma.Strong:" ++ L ++ " strong: G") : String).data ++ D.data := rfl
    rw [hd2, List.getLast?_append_of_ne_nil _ hD1] at hc
    obtain ⟨hne, heq⟩ := List.mem_getLast?_eq_getLast (Option.mem_def.mpr hc)
    rw [heq]
    exact isDigit_not_pySpace _ (hD _ (List.getLast_mem hne))
  unfold pyStrip
  rw [stripChars_eq_self _ hhead hlast]

/-- The app.py Tag Parser on one embedded-encoding word tag: one word
record, lemma captured after lemma.Strong:, key canonicalized from the
strong: G digits sub-marker with leading zeros stripped, gloss resolved
for that canonical key. -/
theorem app_parser_embedded_encoding (env : GlossEnv) (L D M S : String)
    (hL1 : L.data ≠ [])
    (hLc : ∀ c ∈ L.data, pySpace c = false ∧ c ≠ '"' ∧
      (pyLower c == 's') = false ∧ (pyLower c == 'g') = false)
    (hD1 : D.data ≠ []) (hD : ∀ c ∈ D.data, c.isDigit = true)
    (hM : ∀ c ∈ M.data, c ≠ '"')
    (hS1 : S.data ≠ []) (hS : ∀ c ∈ S.data, c ≠ '<') :
    fetch_sword_data_words env (tag_with_lemma_morph (embedded_lemma_attr L D) M S) =
      [⟨pyStrip S, L, pyStrip M, "G" ++ strip_leading_zeros D,
        get_strongs_gloss env ("G" ++ strip_leading_zeros D),
        transliterate (pyStrip S)⟩] := by
  have hAq : ∀ c ∈ (embedded_lemma_attr L D).data, c ≠ '"' := by
    intro c hc
    rw [embedded_lemma_attr_data] at hc
    simp only [List.mem_cons, List.mem_append] at hc
    rcases hc with rfl | rfl | rfl | rfl | rfl | rfl | rfl | rfl | rfl | rfl | rfl | rfl | rfl |
      hcl | rfl | rfl | rfl | rfl | rfl | rfl | rfl | rfl | rfl | rfl | hcd
    all_goals first
      | decide
      | exact (hLc _ hcl).2.1
      | exact isDigit_ne_quote _ (hD _ hcd)
  have hraw : (tag_with_lemma_morph (embedded_lemma_attr L D) M S).data =
      '<' :: 'w' :: ' ' :: 'l' :: 'e' :: 'm' :: 'm' :: 'a' :: '=' :: '"' ::
        ((embedded_lemma_attr L D).data ++ '"' :: ' ' :: 'm' :: 'o' :: 'r' :: 'p' :: 'h' ::
          '=' :: '"' :: (M.data ++ '"' :: '>' :: (S.data ++ ['<', '/', 'w', '>']))) := by
    have l1 : ("<w lemma=\"" : String).data =
        ['<', 'w', ' ', 'l', 'e', 'm', 'm', 'a', '=', '"'] := rfl
    have l2 : ("\" morph=\"" : String).data =
        ['"', ' ', 'm', 'o', 'r', 'p', 'h', '=', '"'] := rfl
    have l3 : ("\">" : String).data = ['"', '>'] := rfl
    have l4 : ("</w>" : String).data = ['<', '/', 'w', '>'] := rfl
    simp [tag_with_lemma_morph, str_data_append, l1, l2, l3, l4]
  have hmatch := appMatchWordAt_full (embedded_lemma_attr L D).data M.data S.data hAq hM hS1 hS
  have hscan : scanMatches appMatchWordAt
      (tag_with_lemma_morph (embedded_lemma_attr L D) M S).data =
      [⟨some (String.mk (embedded_lemma_attr L D).data), some (String.mk M.data),
        String.mk S.data⟩] := by
    rw [hraw]
    exact scanMatches_single appMatchWordAt '<' _ _ hmatch
  have heta : ∀ s : String, String.mk s.data = s := fun s => rfl
  have hstripA := pyStrip_embedded L D hD1 hD
  have hlem := searchLemmaStrong_embedded L D hL1 (fun c hc => (hLc c hc).1)
  have hstr := searchStrong_embedded L D hL1 (fun c hc => (hLc c hc).1)
    (fun c hc => ⟨(hLc c hc).2.2.1, (hLc c hc).2.2.2⟩) hD1 hD
  unfold fetch_sword_data_words
  rw [hscan]
  simp [mkAppWord, heta, hstripA, hlem, hstr]

/-- The sblgnt Tag Parser on one fully attributed direct-encoding word
tag: one word record whose key is the trimmed strong attribute value
copied verbatim. -/
theorem sbl_parser_direct_encoding (LA M K S : String)
    (hLA : ∀ c ∈ LA.data, c ≠ '"') (hM : ∀ c ∈ M.data, c ≠ '"')
    (hK : ∀ c ∈ K.data, c ≠ '"')
    (hS1 : S.data ≠ []) (hS : ∀ c ∈ S.data, c ≠ '<') :
    fetch_sword_data_sbl (tag_with_lemma_morph_strong LA M K S) =
      some [⟨pyStrip S, pyStrip LA, pyStrip M, pyStrip K,
        get_placeholder_gloss (pyStrip K), transliterate (pyStrip S)⟩] := by
  have hraw : (tag_with_lemma_morph_strong LA M K S).data =
      '<' :: 'w' :: ' ' :: 'l' :: 'e' :: 'm' :: 'm' :: 'a' :: '=' :: '"' ::
        (LA.data ++ '"' :: ' ' :: 'm' :: 'o' :: 'r' :: 'p' :: 'h' :: '=' :: '"' ::
          (M.data ++ '"' :: ' ' :: 's' :: 't' :: 'r' :: 'o' :: 'n' :: 'g' :: '=' :: '"' ::
            (K.data ++ '"' :: '>' :: (S.data ++ ['<', '/', 'w', '>'])))) := by
    have l1 : ("<w lemma=\"" : String).data =
        ['<', 'w', ' ', 'l', 'e', 'm', 'm', 'a', '=', '"'] := rfl
    have l2 : ("\" morph=\"" : String).data =
        ['"', ' ', 'm', 'o', 'r', 'p', 'h', '=', '"'] := rfl
    have l2s : ("\" strong=\"" : String).data =
        ['"', ' ', 's', 't', 'r', 'o', 'n', 'g', '=', '"'] := rfl
    have l3 : ("\">" : String).data = ['"', '>'] := rfl
    have l4 : ("</w>" : String).data = ['<', '/', 'w', '>'] := rfl
    simp [tag_with_lemma_morph_strong, str_data_append, l1, l2, l2s, l3, l4]
  have hmatch := sblMatchWordAt_full LA.data M.data K.data S.data hLA hM hK hS1 hS
  have hscan : scanMatches sblMatchWordAt (tag_with_lemma_morph_strong LA M K S).data =
      [⟨some (String.mk LA.data), some (String.mk M.data), some (String.mk K.data),
        String.mk S.data⟩] := by
    rw [hraw]
    exact scanMatches_single sblMatchWordAt '<' _ _ hmatch
  unfold fetch_sword_data_sbl
  rw [hscan]
  rfl

/-- The sblgnt Tag Parser on one attribute-free word tag raises (the
source calls .strip() on the absent groups, giving AttributeError) and
produces no record. -/
theorem sbl_parser_plain_tag (S : String) (hS1 : S.data ≠ [])
    (hS : ∀ c ∈ S.data, c ≠ '<') :
    fetch_sword_data_sbl (tag_plain S) = none := by
  have hraw : (tag_plain S).data = '<' :: 'w' :: '>' :: (S.data ++ ['<', '/', 'w', '>']) := by
    have l1 : ("<w>" : String).data = ['<', 'w', '>'] := rfl
    have l4 : ("</w>" : String).data = ['<', '/', 'w', '>'] := rfl
    simp [tag_plain, str_data_append, l1, l4]
  have hmatch := sblMatchWordAt_plain S.data hS1 hS
  have hscan : scanMatches sblMatchWordAt (tag_plain S).data =
      [⟨none, none, none, String.mk S.data⟩] := by
    rw [hraw]
    exact scanMatches_single sblMatchWordAt '<' _ _ hmatch
  unfold fetch_sword_data_sbl
  rw [hscan]
  rfl

/- ---------------------------------------------------------------------
Claim theorems.
--------------------------------------------------------------------- -/

/-- C1: fetch_passage_data maintains a (chapter, verse) cursor initialized
to the start of the range and loops while the cursor is lexicographically
at most the end of the range; a body whose fetch raises, or whose verse
parses with zero words, advances the cursor to (chapter + 1, 1) appending
nothing, any other body appends the fetched verse and advances the cursor
to (chapter, verse + 1), and the returned sequence is exactly the
accumulated appended verses. -/
theorem c1_fetch_passage_cursor_loop (f : Nat → Nat → Option InterlinearVerse)
    (start_ch start_vs end_ch end_vs cur_ch cur_vs fuel : Nat)
    (verses : List InterlinearVerse) (vdata : InterlinearVerse) :
    (¬ lexLe (cur_ch, cur_vs) (end_ch, end_vs) →
      (fetch_passage_loop f end_ch end_vs cur_ch cur_vs fuel verses).1 = verses) ∧
    (lexLe (cur_ch, cur_vs) (end_ch, end_vs) → f cur_ch cur_vs = none →
      (fetch_passage_loop f end_ch end_vs cur_ch cur_vs (fuel + 1) verses).1 =
        (fetch_passage_loop f end_ch end_vs (cur_ch + 1) 1 fuel verses).1) ∧
    (lexLe (cur_ch, cur_vs) (end_ch, end_vs) → f cur_ch cur_vs = some vdata →
      vdata.words = [] →
      (fetch_passage_loop f end_ch end_vs cur_ch cur_vs (fuel + 1) verses).1 =
        (fetch_passage_loop f end_ch end_vs (cur_ch + 1) 1 fuel verses).1) ∧
    (lexLe (cur_ch, cur_vs) (end_ch, end_vs) → f cur_ch cur_vs = some vdata →
      vdata.words ≠ [] →
      (fetch_passage_loop f end_ch end_vs cur_ch cur_vs (fuel + 1) verses).1 =
        (fetch_passage_loop f end_ch end_vs cur_ch (cur_vs + 1) fuel
          (verses ++ [vdata])).1) ∧
    fetch_passage_data f start_ch start_vs end_ch end_vs =
      (fetch_passage_loop f end_ch end_vs start_ch start_vs 5000 []).1 := by
  have hlex : lexLe (cur_ch, cur_vs) (end_ch, end_vs) =
      (cur_ch < end_ch ∨ (cur_ch = end_ch ∧ cur_vs ≤ end_vs)) := rfl
  refine ⟨?_, ?_, ?_, ?_, rfl⟩
  · intro h
    cases fuel with
    | zero => rfl
    | succ n =>
      rw [hlex] at h
      simp only [fetch_passage_loop, if_neg h]
  · intro hg hf
    rw [hlex] at hg
    simp only [fetch_passage_loop, if_pos hg, hf]
  · intro hg hf hw
    rw [hlex] at hg
    simp only [fetch_passage_loop, if_pos hg, hf, if_pos hw]
  · intro hg hf hw
    rw [hlex] at hg
    simp only [fetch_passage_loop, if_pos hg, hf, if_neg hw]

/-- Witness for C1: one concrete append step of the loop. -/
theorem c1_fetch_passage_cursor_loop_witness :
    (fetch_passage_loop backendConst 1 2 1 1 (0 + 1) []).1 =
      (fetch_passage_loop backendConst 1 2 1 2 0 [verseSample]).1 :=
  (c1_fetch_passage_cursor_loop backendConst 1 1 1 2 1 1 0 [] verseSample).2.2.2.1
    (by decide) rfl (by decide)

/-- C2: for every backend behaviour and every range, fetch_passage_data
performs at most 5000 fetch attempts (and, being a total function of its
fuel, always terminates). -/
theorem c2_fetch_passage_attempts_le_cap (f : Nat → Nat → Option InterlinearVerse)
    (start_ch start_vs end_ch end_vs : Nat) :
    fetch_passage_attempts f start_ch start_vs end_ch end_vs ≤ 5000 :=
  fetch_passage_loop_attempts_le f end_ch end_vs MAX_VERSES start_ch start_vs []

/-- Witness for C2: the cap applied to a backend that always raises. -/
theorem c2_fetch_passage_attempts_le_cap_witness :
    fetch_passage_attempts backendFail 1 1 3 10 ≤ 5000 :=
  c2_fetch_passage_attempts_le_cap backendFail 1 1 3 10

/-- C10: set_translation with the literal NONE clears the selection, with
an available module id selects it, and with any other id returns a not-ok
error result and leaves the selected-translation state unchanged. -/
theorem c10_set_translation_spec (translation_modules : List String)
    (selected : Option String) (module_id : String) :
    (module_id = "NONE" →
      set_translation translation_modules selected module_id =
        (SetTranslationResult.ok none, none)) ∧
    (module_id ≠ "NONE" → module_id ∈ translation_modules →
      set_translation translation_modules selected module_id =
        (SetTranslationResult.ok (some module_id), some module_id)) ∧
    (module_id ≠ "NONE" → module_id ∉ translation_modules →
      (∃ msg, (set_translation translation_modules selected module_id).1 =
        SetTranslationResult.error msg) ∧
      (set_translation translation_modules selected module_id).2 = selected) := by
  refine ⟨?_, ?_, ?_⟩
  · intro h
    simp [set_translation, h]
  · intro h hm
    simp [set_translation, h, hm]
  · intro h hm
    refine ⟨⟨"Translation \x27" ++ module_id ++ "\x27 not available.", ?_⟩, ?_⟩
    · simp [set_translation, h, hm]
    · simp [set_translation, h, hm]

/-- Witness for C10: an unavailable id is rejected and the selection is
kept. -/
theorem c10_set_translation_spec_witness :
    (∃ msg, (set_translation ["LEB"] (some "LEB") "KJV").1 =
      SetTranslationResult.error msg) ∧
    (set_translation ["LEB"] (some "LEB") "KJV").2 = some "LEB" :=
  (c10_set_translation_spec ["LEB"] (some "LEB") "KJV").2.2 (by decide) (by decide)

/-- C3: parse_reference_range succeeds exactly when one of the three
grammars matches the whitespace-normalised input; the grammars are tried
in the order cross-chapter, same-chapter, single-verse with the first
match winning and its groups returned as the canonical range; and the four
test-property inputs behave as stated. -/
theorem c3_parse_reference_grammars :
    (∀ s : String, (parse_reference_range s).isSome ↔
      ((matchRefCross (normalizeRef s)).isSome ∨ (matchRefSame (normalizeRef s)).isSome ∨
        (matchRefSingle (normalizeRef s)).isSome)) ∧
    (∀ (s book : String) (sc sv ec ev : Nat),
      matchRefCross (normalizeRef s) = some (book, sc, sv, ec, ev) →
      parse_reference_range s = some (book, (sc, sv), (ec, ev))) ∧
    (∀ (s book : String) (sc sv ev : Nat),
      matchRefCross (normalizeRef s) = none →
      matchRefSame (normalizeRef s) = some (book, sc, sv, ev) →
      parse_reference_range s = some (book, (sc, sv), (sc, ev))) ∧
    (∀ (s book : String) (sc sv : Nat),
      matchRefCross (normalizeRef s) = none → matchRefSame (normalizeRef s) = none →
      matchRefSingle (normalizeRef s) = some (book, sc, sv) →
      parse_reference_range s = some (book, (sc, sv), (sc, sv))) ∧
    parse_reference_range "John 1:1" = some ("John", (1, 1), (1, 1)) ∧
    parse_reference_range "John 1:1-18" = some ("John", (1, 1), (1, 18)) ∧
    parse_reference_range "John 1:1-5:14" = some ("John", (1, 1), (5, 14)) ∧
    parse_reference_range "Not A Reference" = none := by
  refine ⟨?_, ?_, ?_, ?_, by decide, by decide, by decide, by decide⟩
  · intro s
    simp only [parse_reference_range]
    cases h1 : matchRefCross (normalizeRef s) with
    | some r =>
      obtain ⟨b, sc, sv, ec, ev⟩ := r
      simp [h1]
    | none =>
      cases h2 : matchRefSame (normalizeRef s) with
      | some r =>
        obtain ⟨b, sc, sv, ev⟩ := r
        simp [h2]
      | none =>
        cases h3 : matchRefSingle (normalizeRef s) with
        | some r =>
          obtain ⟨b, sc, sv⟩ := r
          simp [h3]
        | none => simp [h3]
  · intro s book sc sv ec ev h
    simp only [parse_reference_range, h]
  · intro s book sc sv ev h1 h2
    simp only [parse_reference_range, h1, h2]
  · intro s book sc sv h1 h2 h3
    simp only [parse_reference_range, h1, h2, h3]

/-- Witness for C3: the cross-chapter conjunct applied to a concrete
reference. -/
theorem c3_parse_reference_grammars_witness :
    parse_reference_range "John 2:3-4:5" = some ("John", (2, 3), (4, 5)) :=
  c3_parse_reference_grammars.2.1 "John 2:3-4:5" "John" 2 3 4 5 (by decide)

/-- C7 counterexample: the reference John 5:1-1:1 supplies both chapters,
is accepted, and its start exceeds its end in (chapter, verse)
lexicographic order, so the claimed invariant start at most end fails. -/
theorem c7_range_order_counterexample :
    parse_reference_range "John 5:1-1:1" = some ("John", (5, 1), (1, 1)) ∧
    ¬ lexLe (5, 1) (1, 1) := by decide

/-- C7 amended: the parser performs no ordering validation, so start at
most end is not guaranteed for cross-chapter ranges; what does hold is
that any accepted reference not matching the cross-chapter grammar has
equal start and end chapters, and a single-verse reference (neither range
grammar matched) has start equal to end. -/
theorem c7_range_invariant_amended (s book : String) (sc sv ec ev : Nat)
    (h : parse_reference_range s = some (book, (sc, sv), (ec, ev)))
    (hc : matchRefCross (normalizeRef s) = none) :
    sc = ec ∧ (matchRefSame (normalizeRef s) = none → sv = ev) := by
  simp only [parse_reference_range, hc] at h
  cases h2 : matchRefSame (normalizeRef s) with
  | some r =>
    obtain ⟨b, sc', sv', ev'⟩ := r
    simp only [h2, Option.some.injEq, Prod.mk.injEq] at h
    refine ⟨?_, ?_⟩
    · omega
    · intro hn
      exact Option.noConfusion hn
  | none =>
    cases h3 : matchRefSingle (normalizeRef s) with
    | some r =>
      obtain ⟨b, sc', sv'⟩ := r
      simp only [h2, h3, Option.some.injEq, Prod.mk.injEq] at h
      constructor
      · omega
      · intro _
        omega
    | none => simp [h2, h3] at h

/-- Witness for C7: the amended invariant applied to the single verse
reference John 1:1. -/
theorem c7_range_invariant_amended_witness :
    (1 : Nat) = 1 ∧ (matchRefSame (normalizeRef "John 1:1") = none → (1 : Nat) = 1) :=
  c7_range_invariant_amended "John 1:1" "John" 1 1 1 1 (by decide) (by decide)

/-- C4 counterexample: on the single word tag of the test property the
produced transliteration is lόgos (the accented omicron is not in the
character map and passes through unchanged), not logos; and in an
environment with no lexicon and no local dict the produced gloss is the
resolver result for the canonical key G3056, which differs from the
resolver result for the digit key 3056. -/
theorem c4_tag_parser_counterexample :
    ((fetch_sword_data_words envNoLexicon singleLogosTag).map
      (fun w => w.tr_transliteration) = ["lόgos"]) ∧
    ("lόgos" : String) ≠ "logos" ∧
    ((fetch_sword_data_words envNoLexicon singleLogosTag).map
      (fun w => w.en_gloss) = ["G3056"]) ∧
    get_strongs_gloss envNoLexicon "3056" = "3056" ∧
    ("G3056" : String) ≠ "3056" := by decide

/-- C4 amended: on the single word tag of the test property the Tag
Parser yields, in every gloss environment, exactly one word record with
lexical key G3056, lemma λόγος, transliteration lόgos (the unmapped
accented omicron passes through), and gloss equal to the Gloss Resolver
result for the canonical key G3056 (the resolver itself queries the chain
with the digit form 3056). -/
theorem c4_tag_parser_single_tag_amended (env : GlossEnv) :
    fetch_sword_data_words env singleLogosTag =
      [⟨"λόγος", "λόγος", "N-NSM", "G3056", get_strongs_gloss env "G3056", "lόgos"⟩] := rfl

/-- Witness for C4: the amended statement at the no-lexicon
environment. -/
theorem c4_tag_parser_single_tag_amended_witness :
    fetch_sword_data_words envNoLexicon singleLogosTag =
      [⟨"λόγος", "λόγος", "N-NSM", "G3056",
        get_strongs_gloss envNoLexicon "G3056", "lόgos"⟩] :=
  c4_tag_parser_single_tag_amended envNoLexicon

/-- C5 counterexample: a word tag carrying the lexical key directly as an
attribute value with a leading zero produces that attribute value
verbatim, not the canonical leading-zero-stripped form. -/
theorem c5_direct_key_counterexample :
    ((fetch_sword_data_sbl directKeyZerosTag).map
      (fun ws => ws.map (fun w => w.strongs_number)) = some ["G0746"]) ∧
    ("G0746" : String) ≠ "G746" := by decide

/-- C5 amended: over well-formed word tags (quote-free attribute values,
non-empty tag-free surface), both encodings are handled.  For every tag
of the embedded encoding — key inside the lemma attribute after the
lemma.Strong: marker with a strong: G digits sub-marker, the lemma text
non-empty, whitespace-free and containing no character that lowercases to
the marker letters s or g — the parser produces exactly one word record
whose key is canonicalized: G followed by the digits with leading zeros
stripped (an all-zero run gives G0).  For every tag of the direct
encoding carrying lemma, morph and strong attributes, the parser produces
exactly one word record whose key is the trimmed strong attribute value
copied verbatim, without canonicalization.  A direct-encoding tag missing
its attributes is not parsed into a record: the parser raises. -/
theorem c5_two_encodings_amended :
    (∀ (env : GlossEnv) (L D M S : String),
      L.data ≠ [] →
      (∀ c ∈ L.data, pySpace c = false ∧ c ≠ '"' ∧
        (pyLower c == 's') = false ∧ (pyLower c == 'g') = false) →
      D.data ≠ [] → (∀ c ∈ D.data, c.isDigit = true) →
      (∀ c ∈ M.data, c ≠ '"') → S.data ≠ [] → (∀ c ∈ S.data, c ≠ '<') →
      fetch_sword_data_words env (tag_with_lemma_morph (embedded_lemma_attr L D) M S) =
        [⟨pyStrip S, L, pyStrip M, "G" ++ strip_leading_zeros D,
          get_strongs_gloss env ("G" ++ strip_leading_zeros D),
          transliterate (pyStrip S)⟩]) ∧
    (∀ LA M K S : String, (∀ c ∈ LA.data, c ≠ '"') → (∀ c ∈ M.data, c ≠ '"') →
      (∀ c ∈ K.data, c ≠ '"') → S.data ≠ [] → (∀ c ∈ S.data, c ≠ '<') →
      fetch_sword_data_sbl (tag_with_lemma_morph_strong LA M K S) =
        some [⟨pyStrip S, pyStrip LA, pyStrip M, pyStrip K,
          get_placeholder_gloss (pyStrip K), transliterate (pyStrip S)⟩]) ∧
    (∀ S : String, S.data ≠ [] → (∀ c ∈ S.data, c ≠ '<') →
      fetch_sword_data_sbl (tag_plain S) = none) :=
  ⟨fun env L D M S h1 h2 h3 h4 h5 h6 h7 =>
      app_parser_embedded_encoding env L D M S h1 h2 h3 h4 h5 h6 h7,
   fun LA M K S h1 h2 h3 h4 h5 => sbl_parser_direct_encoding LA M K S h1 h2 h3 h4 h5,
   fun S h1 h2 => sbl_parser_plain_tag S h1 h2⟩

/-- Witness for C5: the direct-encoding conjunct applied to the concrete
leading-zero tag, giving the verbatim key G0746. -/
theorem c5_two_encodings_amended_witness :
    fetch_sword_data_sbl (tag_with_lemma_morph_strong "G746" "N-DSF" "G0746" "ἀρχῇ") =
      some [⟨pyStrip "ἀρχῇ", pyStrip "G746", pyStrip "N-DSF", pyStrip "G0746",
        get_placeholder_gloss (pyStrip "G0746"), transliterate (pyStrip "ἀρχῇ")⟩] :=
  c5_two_encodings_amended.2.1 "G746" "N-DSF" "G0746" "ἀρχῇ" (by decide) (by decide)
    (by decide) (by decide) (by decide)

/-- C6 counterexample: with a local fallback dict that maps the digit key
to an empty gloss string, a non-empty key resolves to the empty string —
the local-dict step returns its value without the non-emptiness check the
other steps have. -/
theorem c6_gloss_resolver_counterexample :
    get_strongs_gloss envEmptyGlossValue "G3056" = "" ∧ pyStrip "G3056" ≠ "" := by decide

/-- Helper for C6: when the lexicon step yields nothing, the local-dict
step (whose values are all non-empty by hypothesis) or the trimmed-key
fallback produces a non-empty string. -/
theorem c6_local_or_fallback (env : GlossEnv) (key : String)
    (h : pyStrip key ≠ "") (hvals : ∀ kv ∈ env.localStrongs.getD [], kv.2 ≠ "") :
    (match
      (match env.localStrongs with
        | some m => if m.isEmpty = true then none
            else assocLookup m (pyLStripGg (pyStrip key))
        | none => none) with
      | some g => g
      | none => pyStrip key) ≠ "" := by
  cases hl : env.localStrongs with
  | none => simpa using h
  | some m =>
    by_cases hme : m.isEmpty = true
    · simp only [if_pos hme]
      simpa using h
    · simp only [if_neg hme]
      cases ha : assocLookup m (pyLStripGg (pyStrip key)) with
      | none => simpa using h
      | some v =>
        have hmem := assocLookup_mem m (pyLStripGg (pyStrip key)) v ha
        have hv : v ≠ "" := hvals (pyLStripGg (pyStrip key), v) (by rw [hl]; simpa using hmem)
        simpa using hv

/-- C6 amended: an empty trimmed key resolves to the empty string, and a
non-empty trimmed key resolves to a non-empty string provided every value
of the loaded fallback dict is non-empty (the lexicon step only wins with
a non-empty first line, and the last resort is the trimmed key itself);
with an empty-valued fallback entry the result can be empty. -/
theorem c6_gloss_resolver_amended (env : GlossEnv) (key : String) :
    (pyStrip key = "" → get_strongs_gloss env key = "") ∧
    (pyStrip key ≠ "" → (∀ kv ∈ env.localStrongs.getD [], kv.2 ≠ "") →
      get_strongs_gloss env key ≠ "") := by
  constructor
  · intro h
    simp [get_strongs_gloss, h]
  · intro h hvals
    simp only [get_strongs_gloss, if_neg h]
    cases hm : env.strongsgkModule with
    | some getEntry =>
      cases hb : env.backendIsPythonSword with
      | true =>
        cases he : getEntry (pyLStripGg (pyStrip key)) with
        | some gloss_entry =>
          by_cases hcl : pyStrip (firstLine gloss_entry) ≠ ""
          · simp only [hm, hb, he, if_pos hcl]
            exact hcl
          · simp only [hm, hb, he, if_neg hcl]
            exact c6_local_or_fallback env key h hvals
        | none =>
          simp only [hm, hb, he]
          exact c6_local_or_fallback env key h hvals
      | false =>
        simp only [hm, hb]
        exact c6_local_or_fallback env key h hvals
    | none =>
      simp only [hm]
      exact c6_local_or_fallback env key h hvals

/-- Witness for C6: the amended statement at the no-lexicon environment,
on the empty key and on a non-empty key. -/
theorem c6_gloss_resolver_amended_witness :
    get_strongs_gloss envNoLexicon "" = "" ∧ get_strongs_gloss envNoLexicon "G3056" ≠ "" :=
  ⟨(c6_gloss_resolver_amended envNoLexicon "").1 (by decide),
   (c6_gloss_resolver_amended envNoLexicon "G3056").2 (by decide) (by decide)⟩

/-- C9 counterexample: the multi-verse builder on an empty verses
sequence produces the placeholder single-verse document whose title is
the non-empty string built from empty book, empty chapter and verse 0,
not an empty title. -/
theorem c9_empty_passage_title_counterexample :
    (build_flextext_xml_for_passage ⟨fun _ => ""⟩ [] []).title = " :0" ∧
    (" :0" : String) ≠ "" := by decide

/-- C9 amended: a multi-verse build with an empty input sequence does not
fail: for every environment and configuration it produces the single-verse
document of the placeholder verse, with title the degenerate string of a
space, a colon and a zero, matching abbreviation, and one phrase carrying
verse number 0 and no word entries. -/
theorem c9_empty_passage_amended (env : BuildEnv) (config_map : List (String × String)) :
    (build_flextext_xml_for_passage env [] config_map).title = " :0" ∧
    (build_flextext_xml_for_passage env [] config_map).titleAbbreviation = "_0" ∧
    (build_flextext_xml_for_passage env [] config_map).phrases.map
      (fun p => p.segnum) = ["0"] ∧
    (build_flextext_xml_for_passage env [] config_map).phrases.map
      (fun p => p.wordItems) = [[]] :=
  ⟨rfl, rfl, rfl, rfl⟩

/-- Witness for C9: the amended statement at a concrete environment and
configuration. -/
theorem c9_empty_passage_amended_witness :
    (build_flextext_xml_for_passage ⟨fun _ => "The Word"⟩ []
      [("word_gloss_data_key", "lemma")]).title = " :0" :=
  (c9_empty_passage_amended ⟨fun _ => "The Word"⟩ [("word_gloss_data_key", "lemma")]).1

/-- Each digit value below ten renders as a digit character. -/
theorem digitChar_isDigit (n : Nat) (h : n < 10) : (digitChar n).isDigit = true := by
  interval_cases n <;> decide

/-- Rendering then reading one digit value is the identity. -/
theorem digitChar_toNat (n : Nat) (h : n < 10) : (digitChar n).toNat - 48 = n := by
  interval_cases n <;> decide

/-- All characters of a decimal rendering are digits. -/
theorem repDecAux_digits (fuel : Nat) :
    ∀ n, n < fuel → ∀ c ∈ repDecAux fuel n, c.isDigit = true := by
  induction fuel with
  | zero => intro n hn; omega
  | succ fu ih =>
    intro n hn c hc
    by_cases h10 : n < 10
    · simp only [repDecAux, if_pos h10, List.mem_singleton] at hc
      subst hc
      exact digitChar_isDigit n h10
    · simp only [repDecAux, if_neg h10] at hc
      rcases List.mem_append.1 hc with h1 | h2
      · exact ih (n / 10) (by omega) c h1
      · simp only [List.mem_singleton] at h2
        subst h2
        exact digitChar_isDigit (n % 10) (Nat.mod_lt _ (by omega))

/-- Folding one more digit onto a decimal value. -/
theorem natOfDigits_append_digit (l : List Char) (c : Char) :
    natOfDigits (l ++ [c]) = natOfDigits l * 10 + (c.toNat - 48) := by
  simp [natOfDigits, List.foldl_append]

/-- Reading back a decimal rendering gives the rendered value. -/
theorem repDecAux_value (fuel : Nat) :
    ∀ n, n < fuel → natOfDigits (repDecAux fuel n) = n := by
  induction fuel with
  | zero => intro n hn; omega
  | succ fu ih =>
    intro n hn
    by_cases h10 : n < 10
    · have hd := digitChar_toNat n h10
      simp only [repDecAux, if_pos h10, natOfDigits, List.foldl_cons, List.foldl_nil]
      omega
    · have hv := ih (n / 10) (by omega)
      have hd := digitChar_toNat (n % 10) (Nat.mod_lt _ (by omega))
      simp only [repDecAux, if_neg h10, natOfDigits_append_digit, hv, hd]
      omega

/-- A decimal rendering is never empty. -/
theorem repDecAux_ne_nil (fuel n : Nat) (h : n < fuel) : repDecAux fuel n ≠ [] := by
  cases fuel with
  | zero => omega
  | succ fu =>
    by_cases h10 : n < 10
    · simp [repDecAux, h10]
    · simp [repDecAux, h10]

/-- The underlying characters of a rendered decimal. -/
theorem repDec_data (n : Nat) : (repDec n).data = repDecAux (n + 1) n := rfl

/-- A character that is neither a space nor a colon fails the from_dict
separator class. -/
theorem char_not_sep_of_ne (c : Char) (h1 : c ≠ ' ') (h2 : c ≠ ':') :
    (c == ' ' || c == ':') = false := by
  simp [h1, h2]

/-- Digit characters fail the from_dict separator class. -/
theorem digit_not_sep (c : Char) (h : c.isDigit = true) :
    (c == ' ' || c == ':') = false := by
  refine char_not_sep_of_ne c ?_ ?_
  · intro he; subst he; exact absurd h (by decide)
  · intro he; subst he; exact absurd h (by decide)

/-- Splitting a separator-free list yields that one part. -/
theorem pySplit_no_sep (p : Char → Bool) (l : List Char) (hl : ∀ c ∈ l, p c = false) :
    pySplit p l = [l] := by
  induction l with
  | nil => rfl
  | cons c cs ih =>
    have hc := hl c (List.mem_cons_self c cs)
    have ih2 := ih (fun x hx => hl x (List.mem_cons_of_mem c hx))
    simp [pySplit, hc, ih2]

/-- Splitting at the first separator after a separator-free prefix. -/
theorem pySplit_sep_head (p : Char → Bool) (a b : List Char) (sep : Char)
    (hs : p sep = true) (ha : ∀ c ∈ a, p c = false) :
    pySplit p (a ++ sep :: b) = a :: pySplit p b := by
  induction a with
  | nil => simp [pySplit, hs]
  | cons c cs ih =>
    have hc := ha c (List.mem_cons_self c cs)
    have ih2 := ih (fun x hx => ha x (List.mem_cons_of_mem c hx))
    simp [pySplit, hc, ih2]

/-- Reading back a rendered decimal through the int() model. -/
theorem pyInt_repDec (n : Nat) : pyInt (repDec n).data = some n := by
  have hne : repDecAux (n + 1) n ≠ [] := repDecAux_ne_nil (n + 1) n (Nat.lt_succ_self n)
  have hall : (repDecAux (n + 1) n).all Char.isDigit = true := by
    rw [List.all_eq_true]
    intro c hc
    exact repDecAux_digits (n + 1) n (Nat.lt_succ_self n) c hc
  rw [repDec_data]
  simp only [pyInt, if_pos (And.intro hne hall)]
  rw [repDecAux_value (n + 1) n (Nat.lt_succ_self n)]

/-- C8 counterexample: a verse whose book name contains a space breaks
the round trip — re-parsing the produced reference raises instead of
returning the original triple. -/
theorem c8_roundtrip_counterexample :
    from_dict_ref (get_verse_ref verseWithSpaceBook) = none ∧
    from_dict_ref (get_verse_ref verseWithSpaceBook) ≠
      some (verseWithSpaceBook.book, verseWithSpaceBook.chapter, verseWithSpaceBook.verse) := by
  decide

/-- C8 amended: for every verse whose book name contains neither a space
nor a colon (every book the Reference Parser can produce satisfies this),
serializing and re-parsing the verse reference yields the original
(book, chapter, verse). -/
theorem c8_roundtrip_amended (book : String) (chapter verse : Nat)
    (words : List InterlinearWord) (ft lt : String)
    (hb : ∀ c ∈ book.data, c ≠ ' ' ∧ c ≠ ':') :
    from_dict_ref (get_verse_ref ⟨book, chapter, verse, words, ft, lt⟩) =
      some (book, chapter, verse) := by
  have hbp : ∀ c ∈ book.data, ((c == ' ' || c == ':') = false) := fun c hc =>
    char_not_sep_of_ne c (hb c hc).1 (hb c hc).2
  have hd1 : ∀ c ∈ (repDec chapter).data, ((c == ' ' || c == ':') = false) := fun c hc =>
    digit_not_sep c (repDecAux_digits (chapter + 1) chapter (Nat.lt_succ_self _) c hc)
  have hd2 : ∀ c ∈ (repDec verse).data, ((c == ' ' || c == ':') = false) := fun c hc =>
    digit_not_sep c (repDecAux_digits (verse + 1) verse (Nat.lt_succ_self _) c hc)
  have hdata : (get_verse_ref ⟨book, chapter, verse, words, ft, lt⟩).data =
      book.data ++ ' ' :: ((repDec chapter).data ++ ':' :: (repDec verse).data) := by
    simp [get_verse_ref, str_data_append]
  have hsplit : pySplit (fun c => c == ' ' || c == ':')
      (get_verse_ref ⟨book, chapter, verse, words, ft, lt⟩).data =
      book.data :: (repDec chapter).data :: [(repDec verse).data] := by
    rw [hdata, pySplit_sep_head _ _ _ ' ' (by decide) hbp,
      pySplit_sep_head _ _ _ ':' (by decide) hd1,
      pySplit_no_sep _ _ hd2]
  simp only [from_dict_ref, hsplit, pyInt_repDec]

/-- Witness for C8: the amended round trip on John 1:1. -/
theorem c8_roundtrip_amended_witness :
    from_dict_ref (get_verse_ref ⟨"John", 1, 1, [], "", ""⟩) = some ("John", 1, 1) :=
  c8_roundtrip_amended "John" 1 1 [] "" "" (by decide)
